import Mathlib

/-!
Verification of the scaffolding logic of the `microservice-template` repository.

The repository contains two command-line scaffolding tools, `create-microservice`
(`src/create_microservice/`) and `create-worker` (`src/create_worker/`).  Both
normalize a raw project name into a Python module identifier, validate it,
render a fixed catalog of text templates and write the result to a fresh
directory.  Strings are modelled as `List Char`; the filesystem is modelled as
an association list from relative paths to file contents; the three external
`git` subprocess calls are modelled by an environment value recording each
call's outcome.
-/

/-! ## Name normalizer

`_normalize_name` (identical in `create_microservice/cli.py` and
`create_worker/cli.py`):

    return re.sub(r"[^a-z0-9]+", "_", name.lower()).strip("_")
-/

/-- Characters kept by the normalizer's regex character class `[a-z0-9]`. -/
def isKeep (c : Char) : Bool :=
  decide (97 ≤ c.toNat ∧ c.toNat ≤ 122) || decide (48 ≤ c.toNat ∧ c.toNat ≤ 57)

/-- One pass of `re.sub(r"[^a-z0-9]+", "_", s)`: every maximal run of
characters outside `[a-z0-9]` becomes a single underscore.  The flag records
whether we are currently inside such a run (so further run characters are
absorbed into the underscore already emitted). -/
def py_sub : Bool → List Char → List Char
  | _, [] => []
  | inRun, c :: cs =>
    if isKeep c then c :: py_sub false cs
    else if inRun then py_sub true cs
    else '_' :: py_sub true cs

/-- Python `str.lower()` restricted to the ASCII mapping (sufficient here:
any character the mapping could disagree on is outside `[a-z0-9]` and is
replaced by an underscore in the next step regardless). -/
def py_lower (s : List Char) : List Char := s.map Char.toLower

/-- Python `str.strip("_")`: remove leading and trailing underscores. -/
def py_strip_underscore (s : List Char) : List Char :=
  (((s.dropWhile (fun c => c == '_')).reverse).dropWhile (fun c => c == '_')).reverse

/-- The function `_normalize_name` from both CLI modules. -/
def normalize_name (s : List Char) : List Char :=
  py_strip_underscore (py_sub false (py_lower s))

/-- A normalized character: in the class `[a-z0-9]` or an underscore. -/
def isNormChar (c : Char) : Bool := isKeep c || c == '_'

/-- Predicate `noDoubleUnderscore l`: `l` has no two adjacent underscores. -/
def noDoubleUnderscore : List Char → Bool
  | a :: b :: t => !(a == '_' && b == '_') && noDoubleUnderscore (b :: t)
  | _ => true

/-! ## Path and CLI model

Paths are modelled as lists of components, mirroring
`pathlib.PurePosixPath.parts`.
-/

/-- The `pathlib` parsing of a relative path string: split on the separator and
drop empty and `.` components (`..` components are kept verbatim, exactly as
`PurePosixPath` does). -/
def pathParts (s : List Char) : List (List Char) :=
  (s.splitOn '/').filter (fun p => !(p.isEmpty) && !(p == ['.']))

/-- Join `Path(cwd) / s`: if `s` is absolute it replaces `cwd`, otherwise its
components are appended to `cwd`. -/
def pyPathJoin (cwd : List (List Char)) (s : List Char) : List (List Char) :=
  if s.head? = some '/' then pathParts s else cwd ++ pathParts s

/-- First-character class of `re.match(r"^[a-z_][a-z0-9_]*$", ...)`. -/
def isIdentHead (c : Char) : Bool :=
  decide (97 ≤ c.toNat ∧ c.toNat ≤ 122) || c == '_'

/-- Whether `re.match(r"^[a-z_][a-z0-9_]*$", m)` succeeds (the argument is always a
normalizer output, which never contains a newline, so the `$` anchor is exact
full-match here). -/
def valid_module_name : List Char → Bool
  | [] => false
  | c :: cs => isIdentHead c && cs.all isNormChar

/-- Constant `DEFAULT_LIB_SOURCE`, duplicated verbatim in both CLI modules. -/
def DEFAULT_LIB_SOURCE : List Char :=
  "usvc-lib @ git+https://github.com/mcintyjp/microservice-lib.git".data

/-- The `ScaffoldConfig` dataclass (same fields in both scaffolder variants). -/
structure ScaffoldConfig where
  project_name : List Char
  module_name : List Char
  target_dir : List (List Char)
  provider : List Char
  usvc_lib_dependency : List Char
  init_git : Bool
deriving DecidableEq, Repr

/-- Observable outcome of a CLI `main` run before any scaffolding: either it
terminates with `sys.exit(1)` after one of the two validation errors (no
filesystem mutation has happened at that point), or it builds a
`ScaffoldConfig` and calls `create_project` on it. -/
inductive MainResult where
  | invalidName : MainResult
  | dirExists : MainResult
  | scaffold : ScaffoldConfig → MainResult
deriving DecidableEq, Repr

/-- Function `main` from `create_microservice/cli.py`: normalize, reject an invalid
identifier, compute `Path.cwd() / module_name`, reject an existing target,
then hand a config to `create_project`.  `fsHas` is the filesystem oracle for
`Path.exists()`. -/
def create_microservice_main (cwd : List (List Char)) (name provider libSource : List Char)
    (noGit : Bool) (fsHas : List (List Char) → Bool) : MainResult :=
  let module_name := normalize_name name
  if valid_module_name module_name then
    let target_dir := pyPathJoin cwd module_name
    if fsHas target_dir then .dirExists
    else .scaffold ⟨name, module_name, target_dir, provider, libSource, !noGit⟩
  else .invalidName

/-- Function `main` from `create_worker/cli.py`: normalizes the name but performs no
identifier validation, and computes the target as `Path.cwd() / project_name`
from the raw name. -/
def create_worker_main (cwd : List (List Char)) (name provider libSource : List Char)
    (noGit : Bool) (fsHas : List (List Char) → Bool) : MainResult :=
  let module_name := normalize_name name
  let target_dir := pyPathJoin cwd name
  if fsHas target_dir then .dirExists
  else .scaffold ⟨name, module_name, target_dir, provider, libSource, !noGit⟩

/-- Whether `target` is a directory entry immediately inside `cwd`: one extra, real
component (nonempty, not `.`, not `..`, no separator). -/
def directlyUnder (cwd target : List (List Char)) : Bool :=
  (target.take cwd.length == cwd) &&
    match target.drop cwd.length with
    | [m] => !(m.isEmpty) && !(m == ['.']) && !(m == ['.', '.']) && !(m.contains '/')
    | _ => false

/-- The run terminated with exit status 1 before scaffolding. -/
def MainResult.isErrorExit : MainResult → Bool
  | .scaffold _ => false
  | _ => true

/-! ## Template rendering

`render` in `create_microservice/templates/__init__.py` is
`Template(content).substitute(**kwargs)` from Python's `string` module;
destination path patterns are rendered with `str.format(**kwargs)`.  Both are
modelled as left-to-right scanners with the stdlib's default delimiter `$`
and identifier pattern `[_a-zA-Z][_a-zA-Z0-9]*`.
-/

/-- First character of a `string.Template` identifier. -/
def isIdStart (c : Char) : Bool :=
  c == '_' || decide (97 ≤ c.toNat ∧ c.toNat ≤ 122) || decide (65 ≤ c.toNat ∧ c.toNat ≤ 90)

/-- Continuation character of a `string.Template` identifier. -/
def isIdCont (c : Char) : Bool :=
  isIdStart c || decide (48 ≤ c.toNat ∧ c.toNat ≤ 57)

/-- Rendering failures: `KeyError` for a missing variable, `ValueError` for
an invalid placeholder (`Template.substitute`) or malformed replacement field
(`str.format`; there Python raises `ValueError`/`IndexError`, collapsed to one
constructor since no claim distinguishes them). -/
inductive RenderErr where
  | missingVariable : List Char → RenderErr
  | invalidPlaceholder : RenderErr
deriving DecidableEq, Repr

/-- Variable set passed as `**kwargs`: an association list of
(variable name, value). -/
def lookupVar (vars : List (List Char × List Char)) (k : List Char) : Option (List Char) :=
  match vars with
  | [] => none
  | (k2, v) :: rest => if k2 == k then some v else lookupVar rest k

/-- Scanner state of `Template.substitute`: in plain text; just after a `$`;
inside a bare `$name` identifier; just after `${`; inside a `${name}`
identifier. -/
inductive SubstState where
  | normal : SubstState
  | afterDollar : SubstState
  | named : List Char → SubstState
  | bracedStart : SubstState
  | braced : List Char → SubstState

/-- Scanner of `string.Template.substitute`: `$$` is an escaped dollar, `$name` and
`${name}` substitute the variable (raising `KeyError` when absent), and any
other use of `$` raises `ValueError`, exactly as the stdlib's scanning regex
decides it left to right. -/
def substAux (vars : List (List Char × List Char)) : SubstState → List Char →
    Except RenderErr (List Char)
  | .normal, [] => .ok []
  | .normal, c :: cs =>
    if c == '$' then substAux vars .afterDollar cs
    else (c :: ·) <$> substAux vars .normal cs
  | .afterDollar, [] => .error .invalidPlaceholder
  | .afterDollar, c :: cs =>
    if c == '$' then ('$' :: ·) <$> substAux vars .normal cs
    else if c == '{' then substAux vars .bracedStart cs
    else if isIdStart c then substAux vars (.named [c]) cs
    else .error .invalidPlaceholder
  | .named acc, [] =>
    (match lookupVar vars acc with
     | some v => .ok v
     | none => .error (.missingVariable acc))
  | .named acc, c :: cs =>
    if isIdCont c then substAux vars (.named (acc ++ [c])) cs
    else
      match lookupVar vars acc with
      | some v =>
        if c == '$' then (v ++ ·) <$> substAux vars .afterDollar cs
        else (fun r => v ++ c :: r) <$> substAux vars .normal cs
      | none => .error (.missingVariable acc)
  | .bracedStart, [] => .error .invalidPlaceholder
  | .bracedStart, c :: cs =>
    if isIdStart c then substAux vars (.braced [c]) cs
    else .error .invalidPlaceholder
  | .braced _, [] => .error .invalidPlaceholder
  | .braced acc, c :: cs =>
    if isIdCont c then substAux vars (.braced (acc ++ [c])) cs
    else if c == '}' then
      match lookupVar vars acc with
      | some v => (v ++ ·) <$> substAux vars .normal cs
      | none => .error (.missingVariable acc)
    else .error .invalidPlaceholder

/-- Python `Template(content).substitute(**vars)`. -/
def pySubstitute (vars : List (List Char × List Char)) (t : List Char) :
    Except RenderErr (List Char) :=
  substAux vars .normal t

/-- The named placeholders (`$name` / `${name}`) occurring in a template, in
scan order; the scan continues past an invalid `$` use the way the stdlib
regex resumes after its one-character `invalid` match. -/
def placeholdersAux : SubstState → List Char → List (List Char)
  | .normal, [] => []
  | .normal, c :: cs =>
    if c == '$' then placeholdersAux .afterDollar cs else placeholdersAux .normal cs
  | .afterDollar, [] => []
  | .afterDollar, c :: cs =>
    if c == '$' then placeholdersAux .normal cs
    else if c == '{' then placeholdersAux .bracedStart cs
    else if isIdStart c then placeholdersAux (.named [c]) cs
    else placeholdersAux .normal cs
  | .named acc, [] => [acc]
  | .named acc, c :: cs =>
    if isIdCont c then placeholdersAux (.named (acc ++ [c])) cs
    else acc :: (if c == '$' then placeholdersAux .afterDollar cs
                 else placeholdersAux .normal cs)
  | .bracedStart, [] => []
  | .bracedStart, c :: cs =>
    if isIdStart c then placeholdersAux (.braced [c]) cs
    else if c == '$' then placeholdersAux .afterDollar cs
    else placeholdersAux .normal cs
  | .braced _, [] => []
  | .braced acc, c :: cs =>
    if isIdCont c then placeholdersAux (.braced (acc ++ [c])) cs
    else if c == '}' then acc :: placeholdersAux .normal cs
    else if c == '$' then placeholdersAux .afterDollar cs
    else placeholdersAux .normal cs

/-- Placeholders of a template content string. -/
def placeholders (t : List Char) : List (List Char) :=
  placeholdersAux .normal t

/-- Totality/renderability check: `substRenderable names st t` holds when
scanning `t` from state `st` meets no invalid `$` use, no `$$` escape, and
every placeholder is listed in `names`.  (All templates in this repository
satisfy it with the three manifest variable names.) -/
def substRenderable (names : List (List Char)) : SubstState → List Char → Bool
  | .normal, [] => true
  | .normal, c :: cs =>
    if c == '$' then substRenderable names .afterDollar cs
    else substRenderable names .normal cs
  | .afterDollar, [] => false
  | .afterDollar, c :: cs =>
    if c == '$' then false
    else if c == '{' then substRenderable names .bracedStart cs
    else if isIdStart c then substRenderable names (.named [c]) cs
    else false
  | .named acc, [] => names.contains acc
  | .named acc, c :: cs =>
    if isIdCont c then substRenderable names (.named (acc ++ [c])) cs
    else names.contains acc &&
      (if c == '$' then substRenderable names .afterDollar cs
       else substRenderable names .normal cs)
  | .bracedStart, [] => false
  | .bracedStart, c :: cs =>
    if isIdStart c then substRenderable names (.braced [c]) cs else false
  | .braced _, [] => false
  | .braced acc, c :: cs =>
    if isIdCont c then substRenderable names (.braced (acc ++ [c])) cs
    else if c == '}' then names.contains acc && substRenderable names .normal cs
    else false

/-- Python `str.format(**vars)` for destination path patterns, restricted to the
named-field subset the manifest uses: `{name}` is replaced, `{{`/`}}` are
brace escapes, a stray `{`, `}` or unknown/ill-formed field is an error
(Python raises `ValueError`/`KeyError`/`IndexError` there; conversion and
format-spec syntax, unused in this repository, is treated as part of the
field name and so also errors).  The accumulator is `some acc` while inside
a replacement field. -/
def fmtAux (vars : List (List Char × List Char)) : Option (List Char) → List Char →
    Except RenderErr (List Char)
  | none, [] => .ok []
  | none, c :: cs =>
    if c == '{' then
      match cs with
      | [] => .error .invalidPlaceholder
      | d :: cs2 =>
        if d == '{' then ('{' :: ·) <$> fmtAux vars none cs2
        else fmtAux vars (some []) (d :: cs2)
    else if c == '}' then
      match cs with
      | [] => .error .invalidPlaceholder
      | d :: cs2 =>
        if d == '}' then ('}' :: ·) <$> fmtAux vars none cs2
        else .error .invalidPlaceholder
    else (c :: ·) <$> fmtAux vars none cs
  | some _, [] => .error .invalidPlaceholder
  | some acc, c :: cs =>
    if c == '}' then
      match lookupVar vars acc with
      | some v => (v ++ ·) <$> fmtAux vars none cs
      | none => .error (.missingVariable acc)
    else if c == '{' then .error .invalidPlaceholder
    else fmtAux vars (some (acc ++ [c])) cs

/-- Python `pattern.format(**vars)`. -/
def py_format (vars : List (List Char × List Char)) (pat : List Char) :
    Except RenderErr (List Char) :=
  fmtAux vars none pat

/-- The replacement-field names occurring in a path pattern. -/
def fmtPlaceholdersAux : Option (List Char) → List Char → List (List Char)
  | none, [] => []
  | none, c :: cs =>
    if c == '{' then
      match cs with
      | [] => []
      | d :: cs2 =>
        if d == '{' then fmtPlaceholdersAux none cs2
        else fmtPlaceholdersAux (some []) (d :: cs2)
    else fmtPlaceholdersAux none cs
  | some _, [] => []
  | some acc, c :: cs =>
    if c == '}' then acc :: fmtPlaceholdersAux none cs
    else if c == '{' then fmtPlaceholdersAux none cs
    else fmtPlaceholdersAux (some (acc ++ [c])) cs

/-- Replacement fields of a path pattern. -/
def fmtPlaceholders (pat : List Char) : List (List Char) :=
  fmtPlaceholdersAux none pat

/-! ## Template catalog

The seven template modules below exist under `src/create_microservice/templates/`
and their `CONTENT` strings are embedded verbatim (braces, apostrophes and
backticks written as character escapes).  The remaining eight modules named by
the manifest in `templates/__init__.py` (`gitignore`, `init_py`,
`action_schema`, `service_example`, `conftest_py`, `claude_md`,
`claude_settings`, `copilot_md`) are not present in the source tree and are
modelled from the specification.
-/

/-- Verbatim `CONTENT` of `create_microservice/templates/pyproject_toml.py`. -/
def pyproject_toml_CONTENT : List Char :=
  "[build-system]\nrequires = [\"hatchling\"]\nbuild-backend = \"hatchling.build\"\n\n[project]\nname = \"$project_name\"\nversion = \"0.1.0\"\ndescription = \"$project_name microservice\"\nrequires-python = \">=3.12\"\ndependencies = [\n    \"$usvc_lib_dependency\",\n]\n\n[dependency-groups]\ndev = [\n    \"pytest\",\n    \"pytest-asyncio\",\n]\n\n[tool.pytest.ini_options]\nasyncio_mode = \"auto\"\ntestpaths = [\"tests\"]\npythonpath = [\"src\"]\n\n[tool.hatch.metadata]\nallow-direct-references = true\n\n[tool.hatch.build.targets.wheel]\npackages = [\"src/$module_name\", \"src/actions\", \"src/services\"]\n".data

/-- Verbatim `CONTENT` of `create_microservice/templates/readme.py`. -/
def readme_CONTENT : List Char :=
  "# $project_name\n\nA microservice built with [usvc-lib](https://github.com/mcintyjp/microservice-lib).\n\n## Setup\n\n\x60\x60\x60bash\nuv sync\n\x60\x60\x60\n\n> **Note:** \x60.env\x60 is already created from \x60.env.example\x60 during scaffolding.\n> Copying again would overwrite the file. Edit \x60.env\x60 directly as needed.\n\n### Upgrading usvc-lib\n\nTo pull the latest changes from the \x60usvc-lib\x60 dependency:\n\n\x60\x60\x60bash\nuv sync --upgrade-package usvc-lib\n\x60\x60\x60\n\nThis updates the lock file with the latest commit from the library\x27s repository and syncs your environment.\n\n## Configuration\n\n### OpenTelemetry (Optional)\n\nTo enable distributed tracing and observability, configure these environment variables in \x60.env\x60:\n\n- \x60OTEL_EXPORTER_OTLP_ENDPOINT\x60 \u2014 URL of your OTLP collector (e.g., \x60http://localhost:4318\x60)\n- \x60OTEL_EXPORTER_OTLP_USER\x60 \u2014 Username for authenticated OTLP endpoints\n- \x60OTEL_EXPORTER_OTLP_PASSWORD\x60 \u2014 Password for authenticated OTLP endpoints\n\nThese credentials are used when your OpenTelemetry collector requires HTTP basic authentication.\n\n## Run\n\n\x60\x60\x60bash\nuv run python -m $module_name.main\n\x60\x60\x60\n\n## Test\n\n\x60\x60\x60bash\nuv run pytest tests/ -v\n\x60\x60\x60\n\n## Adding Actions\n\nCreate a new directory under \x60src/actions/\x60 with:\n- \x60handler.py\x60 \u2014 async handler function decorated with \x60@action(name=\"your_action\")\x60\n- \x60schemas.py\x60 \u2014 Pydantic \x60BaseModel\x60 for the action input\n\nSee \x60src/actions/hello_world/\x60 for an example.\n\n## Adding Services\n\nCreate a service class in \x60src/services/\x60 that extends \x60ServiceProvider\x60 or \x60RestAPIService\x60,\nthen register it in \x60src/$module_name/main.py\x60:\n\n\x60\x60\x60python\nfrom usvc_lib import Application\nfrom services.example_api import MyAPI\n\napp = Application()\napp.register_service(MyAPI)\napp.run()\n\x60\x60\x60\n".data

/-- Verbatim `CONTENT` of `create_microservice/templates/env_example.py`. -/
def env_example_CONTENT : List Char :=
  "# $project_name configuration\nMICROSERVICE_NAME=$project_name\n\n# Dev mode (uses in-memory queue instead of Oracle)\nDEV_MODE=true\n\n# Polling\nPOLLING_INTERVAL_SECONDS=5\nMAX_CONCURRENT_JOBS=10\n\n# HTTP server\nHTTP_HOST=0.0.0.0\nHTTP_PORT=8000\n\n# Oracle (required when DEV_MODE=false)\n# ORACLE_DSN=XEPDB1\n# ORACLE_USER=\n# ORACLE_PASSWORD=\n# ORACLE_TABLE=MICRO_SVC\n\n# Logging\nLOG_CONSOLE_JSON=false\n\n# OpenTelemetry (optional - for distributed tracing and logging)\n# OTEL_EXPORTER_OTLP_LOGS_ENDPOINT=http://collector:4318/v1/logs\n# OTEL_EXPORTER_OTLP_TRACES_ENDPOINT=http://collector:4318/v1/traces\n# OTEL_EXPORTER_OTLP_USER=your_user@example.com\n# OTEL_EXPORTER_OTLP_PASSWORD=your_password\n".data

/-- Verbatim `CONTENT` of `create_microservice/templates/main_py.py`. -/
def main_py_CONTENT : List Char :=
  "\"\"\"Entry point for the $project_name microservice.\"\"\"\n\nfrom usvc_lib import Application\n\nfrom $\x7bmodule_name\x7d.config import Settings\n\n\ndef main() -> None:\n    app = Application(settings_class=Settings)\n    app.run()\n\n\nif __name__ == \"__main__\":\n    main()\n".data

/-- Verbatim `CONTENT` of `create_microservice/templates/config_py.py`. -/
def config_py_CONTENT : List Char :=
  "\"\"\"Custom settings for the $project_name microservice.\n\nAdd environment variables specific to this microservice below.\nAll base settings (MICROSERVICE_NAME, DEV_MODE, etc.) are inherited.\n\"\"\"\n\nfrom usvc_lib import WorkerSettings\n\n\nclass Settings(WorkerSettings):\n    # Add your custom environment variables here, e.g.:\n    # MY_API_KEY: str = \"\"\n    # CUSTOM_TIMEOUT: int = 30\n    pass\n".data

/-- Verbatim `CONTENT` of `create_microservice/templates/action_handler.py`. -/
def action_handler_CONTENT : List Char :=
  "\"\"\"hello_world action handler.\"\"\"\n\nfrom usvc_lib import action\n\nfrom actions.hello_world.schemas import HelloWorldInput\n\n\n@action(name=\"hello_world\")\nasync def handle(input_data: HelloWorldInput) -> dict:\n    \"\"\"Process a hello_world action.\"\"\"\n    return \x7b\"message\": f\"Hello, \x7binput_data.name\x7d!\"\x7d\n".data

/-- Verbatim `CONTENT` of `create_microservice/templates/test_example.py`. -/
def test_example_CONTENT : List Char :=
  "\"\"\"Tests for the hello_world action.\"\"\"\n\nimport pytest\n\nfrom actions.hello_world.handler import handle\nfrom actions.hello_world.schemas import HelloWorldInput\n\n\n@pytest.mark.asyncio\nasync def test_hello_world_default_name():\n    input_data = HelloWorldInput()\n    result = await handle(input_data)\n    assert result == \x7b\"message\": \"Hello, World!\"\x7d\n\n\n@pytest.mark.asyncio\nasync def test_hello_world_custom_name():\n    input_data = HelloWorldInput(name=\"Alice\")\n    result = await handle(input_data)\n    assert result == \x7b\"message\": \"Hello, Alice!\"\x7d\n".data

/-- Modelled from the spec: the `gitignore` template module is missing from
the source tree; §6 lists "a git-ignore file" among the generated tree and
the template text is opaque copy-through content with no placeholders. -/
def gitignore_CONTENT : List Char :=
  ".env\n__pycache__/\n*.pyc\n.venv/\n.pytest_cache/\n".data

/-- Modelled from the spec: the `init_py` template module (the "package
marker" of §6) is missing from the source tree; a package marker is an empty
module. -/
def init_py_CONTENT : List Char :=
  "".data

/-- Modelled from the spec: the `action_schema` template module (the example
action's "schema" of §6, a Pydantic input model) is missing from the source
tree. -/
def action_schema_CONTENT : List Char :=
  "\"\"\"hello_world action input schema.\"\"\"\n\nfrom pydantic import BaseModel\n\n\nclass HelloWorldInput(BaseModel):\n    name: str = \"World\"\n".data

/-- Modelled from the spec: the `service_example` template module ("an
example external-service client", §6) is missing from the source tree. -/
def service_example_CONTENT : List Char :=
  "\"\"\"Example REST API service client for $project_name.\"\"\"\n\nfrom usvc_lib import RestAPIService\n\n\nclass ExampleAPI(RestAPIService):\n    base_url = \"https://api.example.com\"\n".data

/-- Modelled from the spec: the `conftest_py` template module (the test
suite's "fixtures", §6) is missing from the source tree. -/
def conftest_py_CONTENT : List Char :=
  "\"\"\"Shared pytest fixtures for the $project_name test suite.\"\"\"\n\nimport sys\nfrom pathlib import Path\n\nsys.path.insert(0, str(Path(__file__).parent.parent / \"src\"))\n".data

/-- Modelled from the spec: the `claude_md` template module (the
"assistant-instructions file" of the claude provider, §6) is missing from the
source tree; its body is opaque framework documentation text. -/
def claude_md_CONTENT : List Char :=
  "# CLAUDE.md\n\nAI assistant guide for the $project_name microservice (module \x24\x7bmodule_name\x7d).\nSee the usvc-lib framework documentation for job handling details.\n".data

/-- Modelled from the spec: the `claude_settings` template module (the
provider "settings file", §6) is missing from the source tree. -/
def claude_settings_CONTENT : List Char :=
  "\x7b\n  \"permissions\": \x7b\n    \"allow\": [\"Bash(uv run:*)\"]\n  \x7d\n\x7d\n".data

/-- Modelled from the spec: the `copilot_md` template module (the "single
alternate assistant-instructions file" of the copilot provider, §6) is
missing from the source tree. -/
def copilot_md_CONTENT : List Char :=
  "# Copilot instructions\n\nThis is the $project_name microservice (module \x24\x7bmodule_name\x7d), built on usvc-lib.\n".data

/-- The base manifest from `create_microservice/templates/__init__.py`:
(template content, relative destination path pattern) pairs, in source
order. -/
def MANIFEST : List (List Char × List Char) :=
  [ (pyproject_toml_CONTENT, "pyproject.toml".data),
    (readme_CONTENT, "README.md".data),
    (gitignore_CONTENT, ".gitignore".data),
    (env_example_CONTENT, ".env.example".data),
    (main_py_CONTENT, "src/\x7bmodule_name\x7d/main.py".data),
    (config_py_CONTENT, "src/\x7bmodule_name\x7d/config.py".data),
    (init_py_CONTENT, "src/\x7bmodule_name\x7d/__init__.py".data),
    (action_handler_CONTENT, "src/actions/hello_world/handler.py".data),
    (action_schema_CONTENT, "src/actions/hello_world/schemas.py".data),
    (init_py_CONTENT, "src/actions/__init__.py".data),
    (init_py_CONTENT, "src/actions/hello_world/__init__.py".data),
    (service_example_CONTENT, "src/services/example_api.py".data),
    (init_py_CONTENT, "src/services/__init__.py".data),
    (conftest_py_CONTENT, "tests/conftest.py".data),
    (test_example_CONTENT, "tests/test_hello_world.py".data),
    (init_py_CONTENT, "tests/__init__.py".data) ]

/-- The claude provider add-on manifest. -/
def CLAUDE_MANIFEST : List (List Char × List Char) :=
  [ (claude_md_CONTENT, "CLAUDE.md".data),
    (claude_settings_CONTENT, ".claude/settings.json".data) ]

/-- The copilot provider add-on manifest. -/
def COPILOT_MANIFEST : List (List Char × List Char) :=
  [ (copilot_md_CONTENT, ".github/copilot-instructions.md".data) ]

/-- The three recognized template variable names. -/
def manifest_var_names : List (List Char) :=
  ["project_name".data, "module_name".data, "usvc_lib_dependency".data]

/-- The variable set built by `create_project` from its config. -/
def template_vars (pn mn ud : List Char) : List (List Char × List Char) :=
  [("project_name".data, pn), ("module_name".data, mn),
   ("usvc_lib_dependency".data, ud)]

/-! ## Scaffolder (`create_microservice/scaffold.py`)

`create_project` renders every manifest entry, writes the files, copies
`.env.example` to `.env`, optionally runs the three `git` commands, and
prints the next-steps report.  The filesystem under the target directory is
modelled as an association list from relative path strings to contents in
which a prepended entry shadows (overwrites) an older one; the `git`
subprocess outcomes are supplied by a `GitEnv` value. -/

/-- Failure of one `subprocess.run` git step: non-zero exit
(`CalledProcessError`, since `check=True`) or the tool being absent
(`FileNotFoundError`). -/
inductive GitErr where
  | calledProcessError : GitErr
  | fileNotFound : GitErr
deriving DecidableEq, Repr

/-- Outcomes of the three git invocations (`git init`, `git add .`,
`git commit -m ...`), `none` meaning success. -/
structure GitEnv where
  initRes : Option GitErr
  addRes : Option GitErr
  commitRes : Option GitErr
deriving DecidableEq, Repr

/-- Function `_git_init` runs the three steps in sequence and stops at the first
failure; this is the error (if any) its `try` block observes. -/
def git_init_outcome (g : GitEnv) : Option GitErr :=
  match g.initRes with
  | some e => some e
  | none =>
    match g.addRes with
    | some e => some e
    | none => g.commitRes

/-- Value of `render(template_module, **vars)` when it succeeds (used to state which
bytes a successful run wrote). -/
def renderOut (vars : List (List Char × List Char)) (t : List Char) : List Char :=
  (pySubstitute vars t).toOption.getD []

/-- The write loop of `create_project` over one manifest: render the
destination path with `str.format`, render the content with
`Template.substitute`, propagating the first raised error. -/
def renderEntries (vars : List (List Char × List Char)) :
    List (List Char × List Char) → Except RenderErr (List (List Char × List Char))
  | [] => .ok []
  | (content, pat) :: rest => do
    let rel ← py_format vars pat
    let out ← pySubstitute vars content
    let tail ← renderEntries vars rest
    pure ((rel, out) :: tail)

/-- Provider dispatch in `create_project`:
`if provider == "claude" ... elif provider == "copilot" ... else []`. -/
def provider_manifest (provider : List Char) : List (List Char × List Char) :=
  if provider == "claude".data then CLAUDE_MANIFEST
  else if provider == "copilot".data then COPILOT_MANIFEST
  else []

/-- Function `_write_file`: `write_text` creates or overwrites the file (parent
directory creation has no observable effect in this model). -/
def fsWrite (fs : List (List Char × List Char)) (k v : List Char) :
    List (List Char × List Char) :=
  (k, v) :: fs

/-- The `.env` duplication step of `create_project`: if `.env.example`
exists at the target root, copy its bytes to `.env` (`shutil.copy2`). -/
def env_copy_step (fs : List (List Char × List Char)) :
    List (List Char × List Char) :=
  match lookupVar fs ".env.example".data with
  | some c => fsWrite fs ".env".data c
  | none => fs

/-- Observable result of a completed `create_project` run. -/
structure RunOutcome where
  fs : List (List Char × List Char)
  gitWarning : Bool
  nextStepsPrinted : Bool
deriving DecidableEq, Repr

/-- Function `create_project(config)`: write the base manifest, write the
provider-specific manifest, copy `.env.example` to `.env` when present, run
`_git_init` when `init_git` (any git failure is caught there and only turns
into a warning), then print the next steps.  `fs0` is the state of the
target directory before the run (empty in a real run, since the CLI already
rejected an existing target). -/
def create_project (cfg : ScaffoldConfig) (git : GitEnv)
    (fs0 : List (List Char × List Char)) : Except RenderErr RunOutcome := do
  let base ← renderEntries
    (template_vars cfg.project_name cfg.module_name cfg.usvc_lib_dependency) MANIFEST
  let prov ← renderEntries
    (template_vars cfg.project_name cfg.module_name cfg.usvc_lib_dependency)
    (provider_manifest cfg.provider)
  pure { fs := env_copy_step ((base ++ prov).foldl (fun fs kv => fsWrite fs kv.1 kv.2) fs0)
         gitWarning := cfg.init_git && (git_init_outcome git).isSome
         nextStepsPrinted := true }

/-- The relative destination paths `create_project` writes through the
template manifests (in write order), before the `.env` copy step. -/
def written_template_paths (cfg : ScaffoldConfig) :
    Except RenderErr (List (List Char)) := do
  let base ← renderEntries
    (template_vars cfg.project_name cfg.module_name cfg.usvc_lib_dependency) MANIFEST
  let prov ← renderEntries
    (template_vars cfg.project_name cfg.module_name cfg.usvc_lib_dependency)
    (provider_manifest cfg.provider)
  pure ((base ++ prov).map Prod.fst)

/-- The sixteen base-manifest destination paths after path rendering, as a
function of the module name. -/
def basePaths (mn : List Char) : List (List Char) :=
  [ "pyproject.toml".data, "README.md".data, ".gitignore".data, ".env.example".data,
    "src/".data ++ mn ++ "/main.py".data,
    "src/".data ++ mn ++ "/config.py".data,
    "src/".data ++ mn ++ "/__init__.py".data,
    "src/actions/hello_world/handler.py".data,
    "src/actions/hello_world/schemas.py".data,
    "src/actions/__init__.py".data,
    "src/actions/hello_world/__init__.py".data,
    "src/services/example_api.py".data,
    "src/services/__init__.py".data,
    "tests/conftest.py".data,
    "tests/test_hello_world.py".data,
    "tests/__init__.py".data ]

/-- The placeholder tokens of the three recognized variables, in both the
bare and the braced spelling. -/
def placeholderTokens : List (List Char) :=
  [ "$project_name".data, "$module_name".data, "$usvc_lib_dependency".data,
    "$\x7bproject_name\x7d".data, "$\x7bmodule_name\x7d".data,
    "$\x7busvc_lib_dependency\x7d".data ]

/-! ## Theorems -/
/-- No character in `[a-z0-9]` is an underscore. -/
theorem isKeep_ne_underscore {c : Char} (h : isKeep c = true) : c ≠ '_' := by
  intro hc
  subst hc
  simp [isKeep] at h

theorem noDoubleUnderscore_cons {c : Char} {l : List Char}
    (h : noDoubleUnderscore (c :: l) = true) : noDoubleUnderscore l = true := by
  cases l with
  | nil => rfl
  | cons d t =>
    simp only [noDoubleUnderscore, Bool.and_eq_true] at h
    exact h.2

theorem noDoubleUnderscore_cons_iff {c : Char} {l : List Char} :
    noDoubleUnderscore (c :: l) = true ↔
      noDoubleUnderscore l = true ∧ ∀ d t, l = d :: t → ¬(c = '_' ∧ d = '_') := by
  cases l with
  | nil => simp [noDoubleUnderscore]
  | cons d t =>
    simp only [noDoubleUnderscore, Bool.and_eq_true]
    constructor
    · rintro ⟨h1, h2⟩
      refine ⟨h2, ?_⟩
      rintro d' t' heq ⟨hc, hd⟩
      cases heq
      subst hc
      subst hd
      simp at h1
    · rintro ⟨h1, h2⟩
      refine ⟨?_, h1⟩
      by_contra hne
      rw [Bool.not_eq_true, Bool.not_eq_false', Bool.and_eq_true, beq_iff_eq, beq_iff_eq] at hne
      exact h2 d t rfl ⟨hne.1, hne.2⟩

/-- Every character that `py_sub` emits is a kept character or an underscore. -/
theorem py_sub_valid : ∀ (b : Bool) (l : List Char), ∀ c ∈ py_sub b l, isNormChar c = true := by
  intro b l
  induction l generalizing b with
  | nil => intro c hc; simp [py_sub] at hc
  | cons a t ih =>
    intro c hc
    by_cases ha : isKeep a = true
    · simp only [py_sub, ha, if_pos, List.mem_cons] at hc
      rcases hc with rfl | hc
      · simp [isNormChar, ha]
      · exact ih false c hc
    · simp only [py_sub, ha] at hc
      cases b with
      | true =>
        simp only [Bool.false_eq_true, if_false, if_true] at hc
        exact ih true c hc
      | false =>
        simp only [Bool.false_eq_true, if_false, List.mem_cons] at hc
        rcases hc with rfl | hc
        · simp [isNormChar]
        · exact ih true c hc

/-- When the previous character was part of a run, the next emitted character
is a kept character (never an underscore). -/
theorem py_sub_true_head :
    ∀ (l : List Char) (c : Char) (t : List Char),
      py_sub true l = c :: t → isKeep c = true := by
  intro l
  induction l with
  | nil => intro c t h; simp [py_sub] at h
  | cons a s ih =>
    intro c t h
    by_cases ha : isKeep a = true
    · simp only [py_sub, ha, if_pos, List.cons.injEq] at h
      exact h.1 ▸ ha
    · simp only [py_sub, ha, Bool.false_eq_true, if_false, if_true] at h
      exact ih c t h

/-- Pass `py_sub` never emits two adjacent underscores. -/
theorem py_sub_noDouble : ∀ (l : List Char) (b : Bool),
    noDoubleUnderscore (py_sub b l) = true := by
  intro l
  induction l with
  | nil => intro b; cases b <;> rfl
  | cons a t ih =>
    intro b
    by_cases ha : isKeep a = true
    · simp only [py_sub, ha, if_pos]
      rw [noDoubleUnderscore_cons_iff]
      refine ⟨ih false, ?_⟩
      rintro d s _ ⟨hc, _⟩
      exact isKeep_ne_underscore ha hc
    · simp only [py_sub, ha, Bool.false_eq_true, if_false]
      cases b with
      | true => simpa using ih true
      | false =>
        simp only [if_false, Bool.false_eq_true]
        rw [noDoubleUnderscore_cons_iff]
        refine ⟨ih true, ?_⟩
        rintro d s heq ⟨_, hd⟩
        exact isKeep_ne_underscore (py_sub_true_head t d s heq) hd

theorem noDoubleUnderscore_dropWhile (p : Char → Bool) {l : List Char}
    (h : noDoubleUnderscore l = true) : noDoubleUnderscore (l.dropWhile p) = true := by
  induction l with
  | nil => exact h
  | cons a t ih =>
    by_cases ha : p a = true
    · rw [List.dropWhile_cons_of_pos ha]
      exact ih (noDoubleUnderscore_cons h)
    · rw [List.dropWhile_cons_of_neg (by simpa using ha)]
      exact h

theorem noDoubleUnderscore_iff_chain {l : List Char} :
    noDoubleUnderscore l = true ↔ l.Chain' (fun a b => ¬(a = '_' ∧ b = '_')) := by
  induction l with
  | nil => simp [noDoubleUnderscore]
  | cons a t ih =>
    rw [noDoubleUnderscore_cons_iff, List.chain'_cons', and_comm]
    refine and_congr ?_ ih
    constructor
    · intro h b hb
      cases t with
      | nil => simp at hb
      | cons d s =>
        simp only [List.head?_cons, Option.mem_def, Option.some.injEq] at hb
        exact hb ▸ h d s rfl
    · intro h d s heq
      subst heq
      exact h d (by simp)

theorem noDoubleUnderscore_reverse {l : List Char}
    (h : noDoubleUnderscore l = true) : noDoubleUnderscore l.reverse = true := by
  rw [noDoubleUnderscore_iff_chain] at h ⊢
  rw [List.chain'_reverse]
  exact h.imp (by intro a b hab hba; exact hab ⟨hba.2, hba.1⟩)

theorem head?_dropWhile_ne {p : Char → Bool} {l : List Char} {c : Char}
    (h : (l.dropWhile p).head? = some c) : p c = false := by
  induction l with
  | nil => simp [List.dropWhile] at h
  | cons a t ih =>
    by_cases ha : p a = true
    · rw [List.dropWhile_cons_of_pos ha] at h
      exact ih h
    · rw [List.dropWhile_cons_of_neg (by simpa using ha)] at h
      simp only [List.head?_cons, Option.some.injEq] at h
      subst h
      simpa using ha

theorem getLast?_dropWhile {p : Char → Bool} {l : List Char}
    (h : l.dropWhile p ≠ []) : (l.dropWhile p).getLast? = l.getLast? := by
  induction l with
  | nil => simp [List.dropWhile] at h
  | cons a t ih =>
    by_cases ha : p a = true
    · rw [List.dropWhile_cons_of_pos ha] at h ⊢
      have ht : t ≠ [] := by
        intro heq
        subst heq
        simp [List.dropWhile] at h
      rw [ih h]
      cases t with
      | nil => exact absurd rfl ht
      | cons b s => rw [List.getLast?_cons_cons]
    · rw [List.dropWhile_cons_of_neg (by simpa using ha)]

/-- The shape invariant of `_normalize_name`: output characters lie in
`[a-z0-9_]`, there is no leading or trailing underscore, and no doubled
underscore. -/
theorem normalize_name_shape (s : List Char) :
    (∀ c ∈ normalize_name s, isNormChar c = true) ∧
    (∀ c, (normalize_name s).head? = some c → c ≠ '_') ∧
    (∀ c, (normalize_name s).getLast? = some c → c ≠ '_') ∧
    noDoubleUnderscore (normalize_name s) = true := by
  set p : Char → Bool := fun c => c == '_' with hp
  set m : List Char := py_sub false (py_lower s) with hm
  have hnorm : normalize_name s = ((m.dropWhile p).reverse.dropWhile p).reverse := rfl
  refine ⟨?_, ?_, ?_, ?_⟩
  · intro c hc
    rw [hnorm, List.mem_reverse] at hc
    have hc2 : c ∈ (m.dropWhile p).reverse := (List.dropWhile_sublist _).mem hc
    rw [List.mem_reverse] at hc2
    exact py_sub_valid false (py_lower s) c ((List.dropWhile_sublist _).mem hc2)
  · intro c hc
    rw [hnorm, List.head?_reverse] at hc
    have hne : (m.dropWhile p).reverse.dropWhile p ≠ [] := by
      intro heq
      rw [heq] at hc
      simp at hc
    rw [getLast?_dropWhile hne, List.getLast?_reverse] at hc
    have := head?_dropWhile_ne hc
    simpa [hp] using this
  · intro c hc
    rw [hnorm, List.getLast?_reverse] at hc
    have := head?_dropWhile_ne hc
    simpa [hp] using this
  · rw [hnorm]
    exact noDoubleUnderscore_reverse (noDoubleUnderscore_dropWhile p
      (noDoubleUnderscore_reverse (noDoubleUnderscore_dropWhile p
        (py_sub_noDouble (py_lower s) false))))

/-- ASCII lower-casing fixes every normalized character. -/
theorem toLower_fixed {c : Char} (h : isNormChar c = true) : c.toLower = c := by
  have hn : 97 ≤ c.toNat ∧ c.toNat ≤ 122 ∨ 48 ≤ c.toNat ∧ c.toNat ≤ 57 ∨ c.toNat = 95 := by
    simp only [isNormChar, isKeep, Bool.or_eq_true, decide_eq_true_eq, beq_iff_eq] at h
    rcases h with (h | h) | h
    · exact Or.inl h
    · exact Or.inr (Or.inl h)
    · subst h; exact Or.inr (Or.inr rfl)
  simp only [Char.toLower]
  rw [if_neg]
  omega

theorem py_lower_fixed {l : List Char} (h : ∀ c ∈ l, isNormChar c = true) :
    py_lower l = l := by
  induction l with
  | nil => rfl
  | cons a t ih =>
    simp only [py_lower, List.map_cons]
    rw [toLower_fixed (h a (by simp)), show (t.map Char.toLower) = py_lower t from rfl,
      ih (fun c hc => h c (by simp [hc]))]

/-- On an already-normalized list, the substitution pass is the identity. -/
theorem py_sub_fixed : ∀ l : List Char, (∀ c ∈ l, isNormChar c = true) →
    noDoubleUnderscore l = true →
    py_sub false l = l ∧ ((∀ d t, l = d :: t → d ≠ '_') → py_sub true l = l) := by
  intro l
  induction l with
  | nil => exact fun _ _ => ⟨rfl, fun _ => rfl⟩
  | cons a t ih =>
    intro hv hd
    have hvt : ∀ c ∈ t, isNormChar c = true := fun c hc => hv c (by simp [hc])
    obtain ⟨hdt, hhd⟩ := noDoubleUnderscore_cons_iff.mp hd
    by_cases ha : isKeep a = true
    · have htl : py_sub false t = t := (ih hvt hdt).1
      constructor
      · simp only [py_sub, ha, if_pos, htl]
      · intro _
        simp only [py_sub, ha, if_pos, htl]
    · have ha' : a = '_' := by
        have := hv a (by simp)
        simp only [isNormChar, Bool.or_eq_true, beq_iff_eq] at this
        rcases this with h | h
        · exact absurd h ha
        · exact h
      have htrue : py_sub true t = t := by
        refine (ih hvt hdt).2 ?_
        intro d s heq hdeq
        exact hhd d s heq ⟨ha', hdeq⟩
      constructor
      · subst ha'
        simp only [py_sub, ha, Bool.false_eq_true, if_false, htrue]
      · intro hhead
        exact absurd ha' (hhead a t rfl)

theorem dropWhile_eq_self_of_head {p : Char → Bool} {l : List Char}
    (h : ∀ c, l.head? = some c → p c = false) : l.dropWhile p = l := by
  cases l with
  | nil => rfl
  | cons a t =>
    rw [List.dropWhile_cons_of_neg]
    simp [h a rfl]

/-- Stripping underscores from a list with no boundary underscore is the
identity. -/
theorem py_strip_underscore_fixed {l : List Char}
    (h1 : ∀ c, l.head? = some c → c ≠ '_')
    (h2 : ∀ c, l.getLast? = some c → c ≠ '_') :
    py_strip_underscore l = l := by
  unfold py_strip_underscore
  rw [dropWhile_eq_self_of_head (p := fun c => c == '_') (l := l)
      (fun c hc => by simpa using h1 c hc)]
  rw [dropWhile_eq_self_of_head (p := fun c => c == '_') (l := l.reverse)
      (fun c hc => by
        rw [List.head?_reverse] at hc
        simpa using h2 c hc)]
  exact List.reverse_reverse l

/-- The normalizer fixes its own output. -/
theorem normalize_name_fixed (s : List Char) :
    normalize_name (normalize_name s) = normalize_name s := by
  obtain ⟨hv, hh, hl, hd⟩ := normalize_name_shape s
  set r : List Char := normalize_name s with hr
  have h1 : py_lower r = r := py_lower_fixed hv
  have h2 : py_sub false r = r := (py_sub_fixed r hv hd).1
  show py_strip_underscore (py_sub false (py_lower r)) = r
  rw [h1, h2]
  exact py_strip_underscore_fixed hh hl

/-- C3: for every input string `s`, `_normalize_name(s)` matches
`^[a-z0-9_]*$`, has no leading underscore, no trailing underscore, and no run
of more than one consecutive underscore. -/
theorem normalize_name_matches_identifier_shape (s : List Char) :
    (normalize_name s).all isNormChar = true ∧
    ((normalize_name s).head? == some '_') = false ∧
    ((normalize_name s).getLast? == some '_') = false ∧
    noDoubleUnderscore (normalize_name s) = true := by
  obtain ⟨hv, hh, hl, hd⟩ := normalize_name_shape s
  refine ⟨List.all_eq_true.mpr hv, ?_, ?_, hd⟩
  · cases hc : (normalize_name s).head? with
    | none => rfl
    | some c =>
      have := hh c hc
      simpa using this
  · cases hc : (normalize_name s).getLast? with
    | none => rfl
    | some c =>
      have := hl c hc
      simpa using this

/-- C9: the six concrete normalizer examples from the specification. -/
theorem normalize_name_examples :
    normalize_name "my-service".data = "my_service".data ∧
    normalize_name "My Service".data = "my_service".data ∧
    normalize_name "My-Cool Service".data = "my_cool_service".data ∧
    normalize_name "MyService".data = "myservice".data ∧
    normalize_name "-my-service-".data = "my_service".data ∧
    normalize_name "...".data = "".data := by
  refine ⟨?_, ?_, ?_, ?_, ?_, ?_⟩ <;> decide

/-- C10: the name normalizer is idempotent. -/
theorem normalize_name_idempotent (s : List Char) :
    normalize_name (normalize_name s) = normalize_name s :=
  normalize_name_fixed s

/-- C1: the claim asserts that for every raw name, the target directory lies
only directly under the current working directory because it is computed as
`cwd / module_name`.  That is how `create_microservice/cli.py` computes it,
but `create_worker/cli.py` (also cited by the claim) computes
`Path.cwd() / project_name` from the *raw* name with no validation, so the
raw name `"../escape"` produces the target `cwd/../escape`, one level above
the working directory — even though its normalization `"escape"` is
separator-free.  The repository's own test
(`tests/test_cli.py::TestInputValidation::test_path_separator_is_normalized`)
expects `create_worker.cli.main` to create `cwd/escape` instead, so the code
contradicts its own test suite. -/
theorem create_worker_main_escapes_cwd :
    normalize_name "../escape".data = "escape".data ∧
    create_worker_main ["home".data] "../escape".data "claude".data
        DEFAULT_LIB_SOURCE false (fun _ => false) =
      MainResult.scaffold
        { project_name := "../escape".data
          module_name := "escape".data
          target_dir := ["home".data, "..".data, "escape".data]
          provider := "claude".data
          usvc_lib_dependency := DEFAULT_LIB_SOURCE
          init_git := true } ∧
    directlyUnder ["home".data] ["home".data, "..".data, "escape".data] = false := by
  refine ⟨by decide, by decide, by decide⟩

/-- C2: the claim asserts that a raw name normalizing to `""` (or any
non-identifier) makes the CLI exit with status 1 before any filesystem
mutation.  `create_microservice/cli.py` does validate, but
`create_worker/cli.py` (also cited by the claim) performs no identifier
validation at all: with the raw name `"..."` (normalization `""`) it
proceeds straight to `create_project`, which mutates the filesystem.  The
repository's own tests
(`tests/test_cli.py::TestInputValidation::test_empty_normalized_name_exits`
and `test_digit_leading_name_exits`) expect `create_worker.cli.main` to raise
`SystemExit(1)` on these inputs, so the code contradicts its own test
suite. -/
theorem create_worker_main_skips_validation :
    normalize_name "...".data = [] ∧
    valid_module_name [] = false ∧
    create_worker_main ["home".data] "...".data "claude".data
        DEFAULT_LIB_SOURCE false (fun _ => false) =
      MainResult.scaffold
        { project_name := "...".data
          module_name := []
          target_dir := ["home".data, "...".data]
          provider := "claude".data
          usvc_lib_dependency := DEFAULT_LIB_SOURCE
          init_git := true } ∧
    valid_module_name (normalize_name "123-service".data) = false ∧
    create_worker_main ["home".data] "123-service".data "claude".data
        DEFAULT_LIB_SOURCE false (fun _ => false) =
      MainResult.scaffold
        { project_name := "123-service".data
          module_name := "123_service".data
          target_dir := ["home".data, "123-service".data]
          provider := "claude".data
          usvc_lib_dependency := DEFAULT_LIB_SOURCE
          init_git := true } := by
  refine ⟨by decide, by decide, by decide, by decide, by decide⟩

/-- C4: in both CLIs, a pre-existing target directory makes the process
report an error and exit with status 1 before `create_project` is ever
invoked, so no filesystem mutation occurs and the existing tree is untouched.
(For `create-microservice` the name-validation error path, which can trigger
first, also exits 1 without mutation.) -/
theorem existing_target_dir_rejected
    (cwd : List (List Char)) (name provider lib : List Char) (noGit : Bool)
    (fsHas : List (List Char) → Bool) :
    (fsHas (pyPathJoin cwd (normalize_name name)) = true →
      (create_microservice_main cwd name provider lib noGit fsHas).isErrorExit = true) ∧
    (fsHas (pyPathJoin cwd name) = true →
      create_worker_main cwd name provider lib noGit fsHas = .dirExists) := by
  constructor
  · intro h
    unfold create_microservice_main
    by_cases hv : valid_module_name (normalize_name name) = true
    · simp only [hv, if_pos, h, if_true]
      rfl
    · simp only [hv, Bool.false_eq_true, if_false]
      rfl
  · intro h
    unfold create_worker_main
    simp only [h, if_true]

/-- Witness for C4 at a concrete invocation: with `cwd = /home`, name
`my-service`, and a filesystem containing both candidate targets, both CLIs
exit with an error. -/
theorem existing_target_dir_rejected_witness :
    ((create_microservice_main ["home".data] "my-service".data "claude".data
        DEFAULT_LIB_SOURCE false
        (fun p => p == ["home".data, "my_service".data] ||
          p == ["home".data, "my-service".data])).isErrorExit = true) ∧
    (create_worker_main ["home".data] "my-service".data "claude".data
        DEFAULT_LIB_SOURCE false
        (fun p => p == ["home".data, "my_service".data] ||
          p == ["home".data, "my-service".data]) = .dirExists) :=
  ⟨(existing_target_dir_rejected ["home".data] "my-service".data "claude".data
      DEFAULT_LIB_SOURCE false _).1 (by decide),
   (existing_target_dir_rejected ["home".data] "my-service".data "claude".data
      DEFAULT_LIB_SOURCE false _).2 (by decide)⟩

theorem lookupVar_of_contains {vars : List (List Char × List Char)} {k : List Char}
    (h : (vars.map Prod.fst).contains k = true) :
    ∃ v, lookupVar vars k = some v ∧ (k, v) ∈ vars := by
  induction vars with
  | nil => simp at h
  | cons kv rest ih =>
    rcases kv with ⟨k2, v2⟩
    by_cases hk : k2 == k
    · refine ⟨v2, ?_, ?_⟩
      · simp [lookupVar, hk]
      · have : k2 = k := by simpa using hk
        subst this
        simp
    · simp only [List.map_cons, List.contains_cons] at h
      have hk2 : ¬ k2 = k := fun he => hk (by simp [he])
      have hk' : (k == k2) = false :=
        beq_eq_false_iff_ne.mpr (fun he => hk2 he.symm)
      rw [hk', Bool.false_or] at h
      obtain ⟨v, hv, hmem⟩ := ih h
      refine ⟨v, ?_, by simp [hmem]⟩
      simp [lookupVar, hk, hv]

/-- A renderable template substitutes successfully, and when no variable
value contains a dollar sign neither does the output. -/
theorem substAux_renderable_ok (vars : List (List Char × List Char)) :
    ∀ (t : List Char) (st : SubstState),
      substRenderable (vars.map Prod.fst) st t = true →
      ∃ out, substAux vars st t = .ok out ∧
        ((∀ kv ∈ vars, '$' ∉ kv.2) → '$' ∉ out) := by
  intro t
  induction t with
  | nil =>
    intro st h
    cases st with
    | normal => exact ⟨[], rfl, by simp⟩
    | afterDollar => simp [substRenderable] at h
    | named acc =>
      simp only [substRenderable] at h
      obtain ⟨v, hv, hmem⟩ := lookupVar_of_contains h
      refine ⟨v, by simp [substAux, hv], fun hvals => hvals (acc, v) hmem⟩
    | bracedStart => simp [substRenderable] at h
    | braced acc => simp [substRenderable] at h
  | cons c cs ih =>
    intro st h
    cases st with
    | normal =>
      by_cases hc : (c == '$') = true
      · rw [substRenderable, if_pos hc] at h
        obtain ⟨out, hok, hd⟩ := ih .afterDollar h
        exact ⟨out, by rw [substAux, if_pos hc]; exact hok, hd⟩
      · rw [substRenderable, if_neg hc] at h
        obtain ⟨out, hok, hd⟩ := ih .normal h
        refine ⟨c :: out, by rw [substAux, if_neg hc, hok]; rfl, ?_⟩
        intro hvals
        simp only [List.mem_cons, not_or]
        exact ⟨fun (he : '$' = c) => hc (by simp [← he]), hd hvals⟩
    | afterDollar =>
      by_cases hc : (c == '$') = true
      · rw [substRenderable, if_pos hc] at h
        exact absurd h (by simp)
      · by_cases hb : (c == '{') = true
        · rw [substRenderable, if_neg hc, if_pos hb] at h
          obtain ⟨out, hok, hd⟩ := ih .bracedStart h
          exact ⟨out, by rw [substAux, if_neg hc, if_pos hb]; exact hok, hd⟩
        · by_cases hi : isIdStart c = true
          · rw [substRenderable, if_neg hc, if_neg hb, if_pos hi] at h
            obtain ⟨out, hok, hd⟩ := ih (.named [c]) h
            exact ⟨out, by rw [substAux, if_neg hc, if_neg hb, if_pos hi]; exact hok, hd⟩
          · rw [substRenderable, if_neg hc, if_neg hb, if_neg hi] at h
            exact absurd h (by simp)
    | named acc =>
      by_cases hi : isIdCont c = true
      · rw [substRenderable, if_pos hi] at h
        obtain ⟨out, hok, hd⟩ := ih (.named (acc ++ [c])) h
        exact ⟨out, by rw [substAux, if_pos hi]; exact hok, hd⟩
      · rw [substRenderable, if_neg hi, Bool.and_eq_true] at h
        obtain ⟨hacc, hrest⟩ := h
        obtain ⟨v, hv, hmem⟩ := lookupVar_of_contains hacc
        by_cases hc : (c == '$') = true
        · rw [if_pos hc] at hrest
          obtain ⟨out, hok, hd⟩ := ih .afterDollar hrest
          refine ⟨v ++ out, by simp [substAux, hi, hv, hc, hok], ?_⟩
          intro hvals
          simp only [List.mem_append, not_or]
          exact ⟨hvals (acc, v) hmem, hd hvals⟩
        · rw [if_neg hc] at hrest
          obtain ⟨out, hok, hd⟩ := ih .normal hrest
          refine ⟨v ++ c :: out, by simp [substAux, hi, hv, hc, hok], ?_⟩
          intro hvals
          simp only [List.mem_append, List.mem_cons, not_or]
          exact ⟨hvals (acc, v) hmem, fun (he : '$' = c) => hc (by simp [← he]), hd hvals⟩
    | bracedStart =>
      by_cases hi : isIdStart c = true
      · rw [substRenderable, if_pos hi] at h
        obtain ⟨out, hok, hd⟩ := ih (.braced [c]) h
        exact ⟨out, by rw [substAux, if_pos hi]; exact hok, hd⟩
      · rw [substRenderable, if_neg hi] at h
        exact absurd h (by simp)
    | braced acc =>
      by_cases hi : isIdCont c = true
      · rw [substRenderable, if_pos hi] at h
        obtain ⟨out, hok, hd⟩ := ih (.braced (acc ++ [c])) h
        exact ⟨out, by rw [substAux, if_pos hi]; exact hok, hd⟩
      · by_cases hb : (c == '}') = true
        · rw [substRenderable, if_neg hi, if_pos hb, Bool.and_eq_true] at h
          obtain ⟨hacc, hrest⟩ := h
          obtain ⟨v, hv, hmem⟩ := lookupVar_of_contains hacc
          obtain ⟨out, hok, hd⟩ := ih .normal hrest
          refine ⟨v ++ out, by simp [substAux, hi, hb, hv, hok], ?_⟩
          intro hvals
          simp only [List.mem_append, not_or]
          exact ⟨hvals (acc, v) hmem, hd hvals⟩
        · rw [substRenderable, if_neg hi, if_neg hb] at h
          exact absurd h (by simp)

/-- If any placeholder scanned in `t` has no binding, `Template.substitute`
raises (either `KeyError` on that placeholder or an earlier error). -/
theorem substAux_missing (vars : List (List Char × List Char)) :
    ∀ (t : List Char) (st : SubstState) (p : List Char),
      p ∈ placeholdersAux st t → lookupVar vars p = none →
      ∃ e, substAux vars st t = .error e := by
  intro t
  induction t with
  | nil =>
    intro st p hp hl
    cases st with
    | normal => simp [placeholdersAux] at hp
    | afterDollar => exact ⟨.invalidPlaceholder, rfl⟩
    | named acc =>
      simp only [placeholdersAux, List.mem_singleton] at hp
      subst hp
      exact ⟨.missingVariable p, by simp [substAux, hl]⟩
    | bracedStart => exact ⟨.invalidPlaceholder, rfl⟩
    | braced acc => exact ⟨.invalidPlaceholder, rfl⟩
  | cons c cs ih =>
    intro st p hp hl
    cases st with
    | normal =>
      by_cases hc : (c == '$') = true
      · rw [placeholdersAux, if_pos hc] at hp
        obtain ⟨e, he⟩ := ih .afterDollar p hp hl
        exact ⟨e, by rw [substAux, if_pos hc]; exact he⟩
      · rw [placeholdersAux, if_neg hc] at hp
        obtain ⟨e, he⟩ := ih .normal p hp hl
        exact ⟨e, by simp [substAux, hc, he]⟩
    | afterDollar =>
      by_cases hc : (c == '$') = true
      · rw [placeholdersAux, if_pos hc] at hp
        obtain ⟨e, he⟩ := ih .normal p hp hl
        exact ⟨e, by simp [substAux, hc, he]⟩
      · by_cases hb : (c == '{') = true
        · rw [placeholdersAux, if_neg hc, if_pos hb] at hp
          obtain ⟨e, he⟩ := ih .bracedStart p hp hl
          exact ⟨e, by simp [substAux, hc, hb, he]⟩
        · by_cases hi : isIdStart c = true
          · rw [placeholdersAux, if_neg hc, if_neg hb, if_pos hi] at hp
            obtain ⟨e, he⟩ := ih (.named [c]) p hp hl
            exact ⟨e, by simp [substAux, hc, hb, hi, he]⟩
          · exact ⟨.invalidPlaceholder, by simp [substAux, hc, hb, hi]⟩
    | named acc =>
      by_cases hi : isIdCont c = true
      · rw [placeholdersAux, if_pos hi] at hp
        obtain ⟨e, he⟩ := ih (.named (acc ++ [c])) p hp hl
        exact ⟨e, by simp [substAux, hi, he]⟩
      · rw [placeholdersAux, if_neg hi] at hp
        rcases List.mem_cons.mp hp with rfl | hp2
        · exact ⟨.missingVariable p, by simp [substAux, hi, hl]⟩
        · rcases hv : lookupVar vars acc with _ | v
          · exact ⟨.missingVariable acc, by simp [substAux, hi, hv]⟩
          · by_cases hc : (c == '$') = true
            · rw [if_pos hc] at hp2
              obtain ⟨e, he⟩ := ih .afterDollar p hp2 hl
              exact ⟨e, by simp [substAux, hi, hv, hc, he]⟩
            · rw [if_neg hc] at hp2
              obtain ⟨e, he⟩ := ih .normal p hp2 hl
              exact ⟨e, by simp [substAux, hi, hv, hc, he]⟩
    | bracedStart =>
      by_cases hi : isIdStart c = true
      · rw [placeholdersAux, if_pos hi] at hp
        obtain ⟨e, he⟩ := ih (.braced [c]) p hp hl
        exact ⟨e, by simp [substAux, hi, he]⟩
      · exact ⟨.invalidPlaceholder, by simp [substAux, hi]⟩
    | braced acc =>
      by_cases hi : isIdCont c = true
      · rw [placeholdersAux, if_pos hi] at hp
        obtain ⟨e, he⟩ := ih (.braced (acc ++ [c])) p hp hl
        exact ⟨e, by simp [substAux, hi, he]⟩
      · by_cases hb : (c == '}') = true
        · rw [placeholdersAux, if_neg hi, if_pos hb] at hp
          rcases List.mem_cons.mp hp with rfl | hp2
          · exact ⟨.missingVariable p, by simp [substAux, hi, hb, hl]⟩
          · rcases hv : lookupVar vars acc with _ | v
            · exact ⟨.missingVariable acc, by simp [substAux, hi, hb, hv]⟩
            · obtain ⟨e, he⟩ := ih .normal p hp2 hl
              exact ⟨e, by simp [substAux, hi, hb, hv, he]⟩
        · exact ⟨.invalidPlaceholder, by simp [substAux, hi, hb]⟩

/-- If any replacement field scanned in a path pattern has no binding,
`str.format` raises (with that field's `KeyError` or an earlier error).
Stated with an explicit length bound to allow the two-character lookahead of
brace escapes in the induction. -/
theorem fmtAux_missing_bounded (vars : List (List Char × List Char)) :
    ∀ (n : Nat) (t : List Char), t.length ≤ n →
      ∀ (st : Option (List Char)) (p : List Char),
        p ∈ fmtPlaceholdersAux st t → lookupVar vars p = none →
        ∃ e, fmtAux vars st t = .error e := by
  intro n
  induction n with
  | zero =>
    intro t ht st p hp hl
    have : t = [] := List.length_eq_zero.mp (Nat.le_zero.mp ht)
    subst this
    cases st with
    | none => simp [fmtPlaceholdersAux] at hp
    | some acc => simp [fmtPlaceholdersAux] at hp
  | succ n ihn =>
    intro t ht st p hp hl
    cases t with
    | nil =>
      cases st with
      | none => simp [fmtPlaceholdersAux] at hp
      | some acc => simp [fmtPlaceholdersAux] at hp
    | cons c cs =>
      have hcs : cs.length ≤ n := by
        simpa using Nat.succ_le_succ_iff.mp ht
      cases st with
      | none =>
        by_cases hc : (c == '{') = true
        · cases cs with
          | nil =>
            rw [fmtPlaceholdersAux, if_pos hc] at hp
            simp at hp
          | cons d cs2 =>
            have hcs2 : cs2.length ≤ n := Nat.le_trans (by simp) hcs
            by_cases hd : (d == '{') = true
            · rw [fmtPlaceholdersAux, if_pos hc] at hp
              rw [if_pos hd] at hp
              obtain ⟨e, he⟩ := ihn cs2 hcs2 none p hp hl
              exact ⟨e, by simp [fmtAux, hc, hd, he]⟩
            · rw [fmtPlaceholdersAux, if_pos hc] at hp
              rw [if_neg hd] at hp
              obtain ⟨e, he⟩ := ihn (d :: cs2) hcs (some []) p hp hl
              have hstep : fmtAux vars none (c :: d :: cs2) =
                  fmtAux vars (some []) (d :: cs2) := by
                simp [fmtAux, hc, hd]
              exact ⟨e, hstep.trans he⟩
        · rw [show fmtPlaceholdersAux none (c :: cs) = fmtPlaceholdersAux none cs from by
            rw [fmtPlaceholdersAux.eq_def]
            simp [hc]] at hp
          by_cases hb : (c == '}') = true
          · cases cs with
            | nil => exact ⟨.invalidPlaceholder, by simp [fmtAux, hc, hb]⟩
            | cons d cs2 =>
              have hcs2 : cs2.length ≤ n := Nat.le_trans (by simp) hcs
              by_cases hd : (d == '}') = true
              · have hdc : (d == '{') = false := by
                  have : d = '}' := by simpa using hd
                  simp [this]
                rw [show fmtPlaceholdersAux none (d :: cs2) =
                    fmtPlaceholdersAux none cs2 from by
                  rw [fmtPlaceholdersAux.eq_def]
                  simp [hdc]] at hp
                obtain ⟨e, he⟩ := ihn cs2 hcs2 none p hp hl
                exact ⟨e, by simp [fmtAux, hc, hb, hd, he]⟩
              · exact ⟨.invalidPlaceholder, by simp [fmtAux, hc, hb, hd]⟩
          · obtain ⟨e, he⟩ := ihn cs hcs none p hp hl
            have hstep : fmtAux vars none (c :: cs) = (c :: ·) <$> fmtAux vars none cs := by
              rw [fmtAux.eq_def]
              simp [hc, hb]
            exact ⟨e, by rw [hstep, he]; rfl⟩
      | some acc =>
        by_cases hb : (c == '}') = true
        · rw [fmtPlaceholdersAux, if_pos hb] at hp
          rcases List.mem_cons.mp hp with rfl | hp2
          · exact ⟨.missingVariable p, by simp [fmtAux, hb, hl]⟩
          · rcases hv : lookupVar vars acc with _ | v
            · exact ⟨.missingVariable acc, by simp [fmtAux, hb, hv]⟩
            · obtain ⟨e, he⟩ := ihn cs hcs none p hp2 hl
              exact ⟨e, by simp [fmtAux, hb, hv, he]⟩
        · by_cases hc : (c == '{') = true
          · exact ⟨.invalidPlaceholder, by simp [fmtAux, hb, hc]⟩
          · rw [fmtPlaceholdersAux, if_neg hb, if_neg hc] at hp
            obtain ⟨e, he⟩ := ihn cs hcs (some (acc ++ [c])) p hp hl
            exact ⟨e, by simp [fmtAux, hb, hc, he]⟩

/-- Python `str.format` copies a brace-free prefix through unchanged. -/
theorem fmt_lit (vars : List (List Char × List Char)) :
    ∀ (pre rest : List Char), '{' ∉ pre → '}' ∉ pre →
      fmtAux vars none (pre ++ rest) = (pre ++ ·) <$> fmtAux vars none rest := by
  intro pre
  induction pre with
  | nil =>
    intro rest _ _
    cases h : fmtAux vars none rest <;> simp [Except.map, h]
  | cons c pre2 ih =>
    intro rest hob hcb
    have hc : (c == '{') = false := by
      simp only [List.mem_cons, not_or] at hob
      exact beq_eq_false_iff_ne.mpr (fun he => hob.1 he.symm)
    have hb : (c == '}') = false := by
      simp only [List.mem_cons, not_or] at hcb
      exact beq_eq_false_iff_ne.mpr (fun he => hcb.1 he.symm)
    have hstep : fmtAux vars none (c :: (pre2 ++ rest)) =
        (c :: ·) <$> fmtAux vars none (pre2 ++ rest) := by
      rw [fmtAux.eq_def]
      simp [hc, hb]
    rw [List.cons_append, hstep,
      ih rest (fun hm => hob (by simp [hm])) (fun hm => hcb (by simp [hm]))]
    cases h : fmtAux vars none rest <;> simp [Except.map]

/-- A brace-free pattern formats to itself. -/
theorem fmt_const (vars : List (List Char × List Char)) (pat : List Char)
    (h1 : '{' ∉ pat) (h2 : '}' ∉ pat) : py_format vars pat = .ok pat := by
  have := fmt_lit vars pat [] h1 h2
  rw [List.append_nil] at this
  rw [py_format, this]
  simp [fmtAux, Except.map]

/-- Scanning a replacement field: the accumulated name is looked up at the
closing brace. -/
theorem fmt_field (vars : List (List Char × List Char)) :
    ∀ (fld : List Char) (acc rest : List Char),
      (∀ c ∈ fld, (c == '}') = false ∧ (c == '{') = false) →
      fmtAux vars (some acc) (fld ++ '}' :: rest) =
        (match lookupVar vars (acc ++ fld) with
         | some v => (v ++ ·) <$> fmtAux vars none rest
         | none => .error (.missingVariable (acc ++ fld))) := by
  intro fld
  induction fld with
  | nil =>
    intro acc rest _
    rw [List.nil_append, List.append_nil]
    rw [fmtAux.eq_def]
    simp
  | cons c fld2 ih =>
    intro acc rest hfld
    obtain ⟨hb, hc⟩ := hfld c (by simp)
    have hstep : fmtAux vars (some acc) (c :: (fld2 ++ '}' :: rest)) =
        fmtAux vars (some (acc ++ [c])) (fld2 ++ '}' :: rest) := by
      rw [fmtAux.eq_def]
      simp [hb, hc]
    rw [List.cons_append, hstep, ih (acc ++ [c]) rest (fun d hd => hfld d (by simp [hd]))]
    rw [List.append_assoc]
    rfl

/-- Formatting a pattern made of a brace-free prefix, one `{name}`
replacement field, and a brace-free suffix. -/
theorem fmt_single_field (vars : List (List Char × List Char))
    (pre fld post v : List Char)
    (hpre1 : '{' ∉ pre) (hpre2 : '}' ∉ pre)
    (hpost1 : '{' ∉ post) (hpost2 : '}' ∉ post)
    (hfld : ∀ c ∈ fld, (c == '}') = false ∧ (c == '{') = false)
    (hne : fld ≠ [])
    (hv : lookupVar vars fld = some v) :
    py_format vars (pre ++ '{' :: (fld ++ '}' :: post)) = .ok (pre ++ (v ++ post)) := by
  rw [py_format, fmt_lit vars pre ('{' :: (fld ++ '}' :: post)) hpre1 hpre2]
  cases fld with
  | nil => exact absurd rfl hne
  | cons d fld2 =>
    obtain ⟨hdb, hdc⟩ := hfld d (by simp)
    have hstep : fmtAux vars none ('{' :: ((d :: fld2) ++ '}' :: post)) =
        fmtAux vars (some []) ((d :: fld2) ++ '}' :: post) := by
      rw [fmtAux.eq_def]
      simp [hdc]
    rw [hstep, fmt_field vars (d :: fld2) [] post hfld, List.nil_append, hv]
    have hpost := fmt_const vars post hpost1 hpost2
    rw [py_format] at hpost
    rw [hpost]
    rfl

/-- When every entry's content is renderable and every destination pattern
formats to the given path, the write loop succeeds and produces exactly those
paths with the substituted contents. -/
theorem renderEntries_spec (vars : List (List Char × List Char)) :
    ∀ (entries : List (List Char × List Char)) (paths : List (List Char)),
      (∀ e ∈ entries, substRenderable (vars.map Prod.fst) .normal e.1 = true) →
      entries.map (fun e => py_format vars e.2) = paths.map Except.ok →
      ∃ l, renderEntries vars entries = .ok l ∧
        l.map Prod.fst = paths ∧
        l.map Prod.snd = entries.map (fun e => renderOut vars e.1) := by
  intro entries
  induction entries with
  | nil =>
    intro paths _ hpaths
    have : paths = [] := by
      cases paths with
      | nil => rfl
      | cons q qs => simp at hpaths
    subst this
    exact ⟨[], rfl, rfl, rfl⟩
  | cons e rest ih =>
    intro paths hren hpaths
    rcases e with ⟨content, pat⟩
    cases paths with
    | nil => simp at hpaths
    | cons q qs =>
      simp only [List.map_cons, List.cons.injEq] at hpaths
      obtain ⟨hq, hqs⟩ := hpaths
      obtain ⟨out, hout, _⟩ :=
        substAux_renderable_ok vars content .normal (hren (content, pat) (by simp))
      obtain ⟨l, hl, hfst, hsnd⟩ := ih qs (fun e2 he2 => hren e2 (by simp [he2])) hqs
      refine ⟨(q, out) :: l, ?_, ?_, ?_⟩
      · rw [renderEntries]
        rw [hq]
        show (do
          let out2 ← pySubstitute vars content
          let tail ← renderEntries vars rest
          pure ((q, out2) :: tail)) = Except.ok ((q, out) :: l)
        rw [show pySubstitute vars content = Except.ok out from hout, hl]
        rfl
      · simp [hfst]
      · simp [renderOut, pySubstitute, hout, hsnd, Except.toOption]

set_option maxRecDepth 8000 in
/-- Every template in the catalog is renderable with the three manifest
variable names (computation over the concrete template strings). -/
theorem manifest_renderable_all :
    ((MANIFEST ++ CLAUDE_MANIFEST ++ COPILOT_MANIFEST).all
      (fun e => substRenderable manifest_var_names .normal e.1)) = true := by
  decide

theorem manifest_renderable {e : List Char × List Char}
    (he : e ∈ MANIFEST ++ CLAUDE_MANIFEST ++ COPILOT_MANIFEST) :
    substRenderable manifest_var_names .normal e.1 = true :=
  List.all_eq_true.mp manifest_renderable_all e he

theorem template_vars_keys (pn mn ud : List Char) :
    (template_vars pn mn ud).map Prod.fst = manifest_var_names := rfl

/-- Path rendering over the base manifest yields exactly `basePaths`. -/
theorem manifest_paths_eval (pn mn ud : List Char) :
    MANIFEST.map (fun e => py_format (template_vars pn mn ud) e.2) =
      (basePaths mn).map Except.ok := by
  have hv : lookupVar (template_vars pn mn ud) "module_name".data = some mn := rfl
  have hmain : py_format (template_vars pn mn ud) "src/\x7bmodule_name\x7d/main.py".data =
      .ok ("src/".data ++ mn ++ "/main.py".data) := by
    rw [show ("src/\x7bmodule_name\x7d/main.py".data : List Char) =
        "src/".data ++ '{' :: ("module_name".data ++ '}' :: "/main.py".data) from by decide]
    exact fmt_single_field _ _ _ _ _ (by decide) (by decide) (by decide) (by decide)
      (by decide) (by decide) hv
  have hconf : py_format (template_vars pn mn ud) "src/\x7bmodule_name\x7d/config.py".data =
      .ok ("src/".data ++ mn ++ "/config.py".data) := by
    rw [show ("src/\x7bmodule_name\x7d/config.py".data : List Char) =
        "src/".data ++ '{' :: ("module_name".data ++ '}' :: "/config.py".data) from by decide]
    exact fmt_single_field _ _ _ _ _ (by decide) (by decide) (by decide) (by decide)
      (by decide) (by decide) hv
  have hinitp : py_format (template_vars pn mn ud) "src/\x7bmodule_name\x7d/__init__.py".data =
      .ok ("src/".data ++ mn ++ "/__init__.py".data) := by
    rw [show ("src/\x7bmodule_name\x7d/__init__.py".data : List Char) =
        "src/".data ++ '{' :: ("module_name".data ++ '}' :: "/__init__.py".data) from by decide]
    exact fmt_single_field _ _ _ _ _ (by decide) (by decide) (by decide) (by decide)
      (by decide) (by decide) hv
  simp only [MANIFEST, basePaths, List.map_cons, List.map_nil]
  rw [hmain, hconf, hinitp]
  rfl

/-- Path rendering over each provider add-on manifest (constant patterns). -/
theorem claude_paths_eval (pn mn ud : List Char) :
    CLAUDE_MANIFEST.map (fun e => py_format (template_vars pn mn ud) e.2) =
      ["CLAUDE.md".data, ".claude/settings.json".data].map Except.ok := rfl

theorem copilot_paths_eval (pn mn ud : List Char) :
    COPILOT_MANIFEST.map (fun e => py_format (template_vars pn mn ud) e.2) =
      [".github/copilot-instructions.md".data].map Except.ok := rfl

/-- The write loop prepends entries in order. -/
theorem foldl_fsWrite (l : List (List Char × List Char)) :
    ∀ fs0, l.foldl (fun fs kv => fsWrite fs kv.1 kv.2) fs0 = l.reverse ++ fs0 := by
  induction l with
  | nil => intro fs0; rfl
  | cons kv rest ih =>
    intro fs0
    rw [List.foldl_cons, ih, List.reverse_cons, List.append_assoc]
    rfl

theorem lookupVar_append_of_absent {a b : List (List Char × List Char)} {k : List Char}
    (h : ∀ e ∈ a, (e.1 == k) = false) :
    lookupVar (a ++ b) k = lookupVar b k := by
  induction a with
  | nil => rfl
  | cons e rest ih =>
    rw [List.cons_append, lookupVar, h e (by simp), if_neg (by simp)]
    exact ih (fun e2 he2 => h e2 (by simp [he2]))

/-- A module-dependent destination path (under `src/`) is never a dot-file
such as `.env.example`. -/
theorem src_append_beq_false {x k : List Char} (hk : k.head? ≠ some 's') :
    (("src/".data ++ x) == k) = false := by
  rw [beq_eq_false_iff_ne]
  intro h
  exact hk (by rw [← h]; rfl)

/-- Rendering the base manifest: success, the expected paths, the expected
contents. -/
theorem render_base (pn mn ud : List Char) :
    ∃ base, renderEntries (template_vars pn mn ud) MANIFEST = .ok base ∧
      base.map Prod.fst = basePaths mn ∧
      base.map Prod.snd =
        MANIFEST.map (fun e => renderOut (template_vars pn mn ud) e.1) := by
  refine renderEntries_spec (template_vars pn mn ud) MANIFEST (basePaths mn) ?_ ?_
  · intro e he
    rw [template_vars_keys]
    exact manifest_renderable (by simp [he])
  · exact manifest_paths_eval pn mn ud

/-- Rendering the provider manifest: success, and the rendered paths are the
manifest's (constant) patterns. -/
theorem render_provider (pn mn ud provider : List Char) :
    ∃ prov, renderEntries (template_vars pn mn ud) (provider_manifest provider) = .ok prov ∧
      prov.map Prod.fst = (provider_manifest provider).map Prod.snd ∧
      prov.map Prod.snd =
        (provider_manifest provider).map (fun e => renderOut (template_vars pn mn ud) e.1) := by
  unfold provider_manifest
  by_cases h1 : (provider == "claude".data) = true
  · rw [if_pos h1]
    obtain ⟨l, hl1, hl2, hl3⟩ := renderEntries_spec (template_vars pn mn ud) CLAUDE_MANIFEST
      ["CLAUDE.md".data, ".claude/settings.json".data]
      (fun e he => by
        rw [template_vars_keys]
        exact manifest_renderable (by simp [he]))
      (claude_paths_eval pn mn ud)
    exact ⟨l, hl1, by simpa [CLAUDE_MANIFEST] using hl2, hl3⟩
  · rw [if_neg h1]
    by_cases h2 : (provider == "copilot".data) = true
    · rw [if_pos h2]
      obtain ⟨l, hl1, hl2, hl3⟩ := renderEntries_spec (template_vars pn mn ud) COPILOT_MANIFEST
        [".github/copilot-instructions.md".data]
        (fun e he => by
          rw [template_vars_keys]
          exact manifest_renderable (by simp [he]))
        (copilot_paths_eval pn mn ud)
      exact ⟨l, hl1, by simpa [COPILOT_MANIFEST] using hl2, hl3⟩
    · rw [if_neg h2]
      exact ⟨[], rfl, rfl, rfl⟩

/-- Unfolding a `create_project` run once both manifests rendered. -/
theorem create_project_eq (cfg : ScaffoldConfig) (git : GitEnv)
    (fs0 base prov : List (List Char × List Char))
    (hbase : renderEntries
      (template_vars cfg.project_name cfg.module_name cfg.usvc_lib_dependency)
      MANIFEST = .ok base)
    (hprov : renderEntries
      (template_vars cfg.project_name cfg.module_name cfg.usvc_lib_dependency)
      (provider_manifest cfg.provider) = .ok prov) :
    create_project cfg git fs0 = .ok
      { fs := env_copy_step ((base ++ prov).reverse ++ fs0)
        gitWarning := cfg.init_git && (git_init_outcome git).isSome
        nextStepsPrinted := true } := by
  unfold create_project
  rw [hbase, hprov]
  show Except.ok _ = _
  rw [foldl_fsWrite]

/-- C5: (i) a placeholder of a template content that is absent from the
variable set makes `Template.substitute` raise rather than pass unresolved
text through; (ii) likewise for a replacement field of a destination path
pattern under `str.format`; (iii) rendering any template of any manifest
with the complete three-variable set (whose values are free of the
delimiter, as the config's values are) succeeds and leaves no occurrence of
any of the six placeholder tokens in the output. -/
theorem render_missing_fails_and_complete :
    (∀ (t : List Char) (vars : List (List Char × List Char)) (p : List Char),
      p ∈ placeholders t → lookupVar vars p = none →
      ∃ e, pySubstitute vars t = .error e) ∧
    (∀ (pat : List Char) (vars : List (List Char × List Char)) (p : List Char),
      p ∈ fmtPlaceholders pat → lookupVar vars p = none →
      ∃ e, py_format vars pat = .error e) ∧
    (∀ (pn mn ud : List Char), '$' ∉ pn → '$' ∉ mn → '$' ∉ ud →
      ∀ e ∈ MANIFEST ++ CLAUDE_MANIFEST ++ COPILOT_MANIFEST,
        ∃ out, pySubstitute (template_vars pn mn ud) e.1 = .ok out ∧
          ∀ tok ∈ placeholderTokens, ¬ tok <:+: out) := by
  refine ⟨?_, ?_, ?_⟩
  · intro t vars p hp hl
    exact substAux_missing vars t .normal p hp hl
  · intro pat vars p hp hl
    exact fmtAux_missing_bounded vars pat.length pat (Nat.le_refl _) none p hp hl
  · intro pn mn ud h1 h2 h3 e he
    have hren : substRenderable ((template_vars pn mn ud).map Prod.fst) .normal e.1 = true := by
      rw [template_vars_keys]
      exact manifest_renderable he
    obtain ⟨out, hok, hd⟩ := substAux_renderable_ok (template_vars pn mn ud) e.1 .normal hren
    refine ⟨out, hok, ?_⟩
    have hout : '$' ∉ out := by
      refine hd ?_
      intro kv hkv
      simp only [template_vars, List.mem_cons, List.not_mem_nil, or_false] at hkv
      rcases hkv with rfl | rfl | rfl
      · exact h1
      · exact h2
      · exact h3
    intro tok htok hinf
    have hdol : '$' ∈ tok := by
      simp only [placeholderTokens, List.mem_cons, List.not_mem_nil, or_false] at htok
      rcases htok with rfl | rfl | rfl | rfl | rfl | rfl <;> decide
    exact hout (hinf.subset hdol)

/-- Witness for C5 at concrete inputs: substituting `"$x"` (and formatting
`"\x7bx\x7d"`) with an empty variable set fails, and the catalog renders
token-free with the default run's values. -/
theorem render_missing_fails_and_complete_witness :
    (∃ e, pySubstitute [] "$x".data = .error e) ∧
    (∃ e, py_format [] "\x7bx\x7d".data = .error e) ∧
    (∀ e ∈ MANIFEST ++ CLAUDE_MANIFEST ++ COPILOT_MANIFEST,
      ∃ out, pySubstitute
        (template_vars "test-service".data "test_service".data DEFAULT_LIB_SOURCE) e.1 =
          .ok out ∧ ∀ tok ∈ placeholderTokens, ¬ tok <:+: out) :=
  ⟨render_missing_fails_and_complete.1 "$x".data [] "x".data (by decide) rfl,
   render_missing_fails_and_complete.2.1 "\x7bx\x7d".data [] "x".data (by decide) rfl,
   render_missing_fails_and_complete.2.2 "test-service".data "test_service".data
     DEFAULT_LIB_SOURCE (by decide) (by decide) (by decide)⟩

theorem basePaths_beq_env (mn : List Char) :
    ∀ q ∈ (basePaths mn).drop 4, (q == ".env.example".data) = false := by
  intro q hq
  have hq2 : q ∈
      [ "src/".data ++ mn ++ "/main.py".data,
        "src/".data ++ mn ++ "/config.py".data,
        "src/".data ++ mn ++ "/__init__.py".data,
        "src/actions/hello_world/handler.py".data,
        "src/actions/hello_world/schemas.py".data,
        "src/actions/__init__.py".data,
        "src/actions/hello_world/__init__.py".data,
        "src/services/example_api.py".data,
        "src/services/__init__.py".data,
        "tests/conftest.py".data,
        "tests/test_hello_world.py".data,
        "tests/__init__.py".data ] := hq
  simp only [List.mem_cons, List.not_mem_nil, or_false] at hq2
  rcases hq2 with rfl | rfl | rfl | rfl | rfl | rfl | rfl | rfl | rfl | rfl | rfl | rfl <;>
    first
      | exact src_append_beq_false (by decide)
      | decide

theorem basePaths_no_addon (mn : List Char) :
    "CLAUDE.md".data ∉ basePaths mn ∧
    ".claude/settings.json".data ∉ basePaths mn ∧
    ".github/copilot-instructions.md".data ∉ basePaths mn := by
  refine ⟨?_, ?_, ?_⟩ <;>
  · intro hmem
    simp only [basePaths, List.mem_cons, List.not_mem_nil, or_false] at hmem
    rcases hmem with h | h | h | h | h | h | h | h | h | h | h | h | h | h | h | h <;>
      first
        | exact absurd h (by decide)
        | exact absurd h.symm (beq_eq_false_iff_ne.mp (src_append_beq_false (by decide)))

theorem written_template_paths_eq (cfg : ScaffoldConfig)
    (base prov : List (List Char × List Char))
    (hbase : renderEntries
      (template_vars cfg.project_name cfg.module_name cfg.usvc_lib_dependency)
      MANIFEST = .ok base)
    (hprov : renderEntries
      (template_vars cfg.project_name cfg.module_name cfg.usvc_lib_dependency)
      (provider_manifest cfg.provider) = .ok prov) :
    written_template_paths cfg = .ok ((base ++ prov).map Prod.fst) := by
  unfold written_template_paths
  rw [hbase, hprov]
  rfl

/-- C6: provider selection is exact and total.  The rendered write list is
always the base manifest's sixteen paths followed by the selected provider
manifest's paths; with provider `claude` the add-on is exactly `CLAUDE.md`
and `.claude/settings.json` and no copilot file appears anywhere; with
`copilot` it is exactly `.github/copilot-instructions.md` and no claude file
appears; any other provider value yields an empty add-on (no error), so only
the base manifest is written. -/
theorem provider_selection_exact (cfg : ScaffoldConfig) :
    ∃ ps, written_template_paths cfg = .ok ps ∧
      ps = basePaths cfg.module_name ++ (provider_manifest cfg.provider).map Prod.snd ∧
      (cfg.provider = "claude".data →
        ps = basePaths cfg.module_name ++ ["CLAUDE.md".data, ".claude/settings.json".data] ∧
        ".github/copilot-instructions.md".data ∉ ps) ∧
      (cfg.provider = "copilot".data →
        ps = basePaths cfg.module_name ++ [".github/copilot-instructions.md".data] ∧
        "CLAUDE.md".data ∉ ps ∧ ".claude/settings.json".data ∉ ps) ∧
      (cfg.provider ≠ "claude".data → cfg.provider ≠ "copilot".data →
        ps = basePaths cfg.module_name) := by
  obtain ⟨base, hb1, hb2, _⟩ :=
    render_base cfg.project_name cfg.module_name cfg.usvc_lib_dependency
  obtain ⟨prov, hp1, hp2, _⟩ :=
    render_provider cfg.project_name cfg.module_name cfg.usvc_lib_dependency cfg.provider
  refine ⟨(base ++ prov).map Prod.fst, written_template_paths_eq cfg base prov hb1 hp1,
    ?_, ?_, ?_, ?_⟩
  · rw [List.map_append, hb2, hp2]
  · intro hcl
    have hpm : provider_manifest cfg.provider = CLAUDE_MANIFEST := by
      unfold provider_manifest
      rw [if_pos (by simp [hcl])]
    constructor
    · rw [List.map_append, hb2, hp2, hpm]
      rfl
    · rw [List.map_append, hb2, hp2, hpm]
      intro hmem
      rcases List.mem_append.mp hmem with hmem2 | hmem2
      · exact (basePaths_no_addon cfg.module_name).2.2 hmem2
      · simp [CLAUDE_MANIFEST] at hmem2
  · intro hco
    have hpm : provider_manifest cfg.provider = COPILOT_MANIFEST := by
      unfold provider_manifest
      have : (cfg.provider == "claude".data) = false := by
        rw [hco]
        decide
      rw [if_neg (by simp [this]), if_pos (by simp [hco])]
    refine ⟨?_, ?_, ?_⟩
    · rw [List.map_append, hb2, hp2, hpm]
      rfl
    · rw [List.map_append, hb2, hp2, hpm]
      intro hmem
      rcases List.mem_append.mp hmem with hmem2 | hmem2
      · exact (basePaths_no_addon cfg.module_name).1 hmem2
      · simp [COPILOT_MANIFEST] at hmem2
    · rw [List.map_append, hb2, hp2, hpm]
      intro hmem
      rcases List.mem_append.mp hmem with hmem2 | hmem2
      · exact (basePaths_no_addon cfg.module_name).2.1 hmem2
      · simp [COPILOT_MANIFEST] at hmem2
  · intro hncl hnco
    have hpm : provider_manifest cfg.provider = [] := by
      unfold provider_manifest
      rw [if_neg (by simp [hncl]), if_neg (by simp [hnco])]
    rw [List.map_append, hb2, hp2, hpm]
    simp

/-- Witness for C6 at the three provider cases (claude, copilot, and an
unrecognized provider), with concrete configs. -/
theorem provider_selection_exact_witness :
    (∃ ps, written_template_paths
        ⟨"t".data, "t".data, [], "claude".data, DEFAULT_LIB_SOURCE, true⟩ = .ok ps ∧
      ps = basePaths "t".data ++ ["CLAUDE.md".data, ".claude/settings.json".data] ∧
      ".github/copilot-instructions.md".data ∉ ps) ∧
    (∃ ps, written_template_paths
        ⟨"t".data, "t".data, [], "copilot".data, DEFAULT_LIB_SOURCE, true⟩ = .ok ps ∧
      ps = basePaths "t".data ++ [".github/copilot-instructions.md".data] ∧
      "CLAUDE.md".data ∉ ps) ∧
    (∃ ps, written_template_paths
        ⟨"t".data, "t".data, [], "cursor".data, DEFAULT_LIB_SOURCE, true⟩ = .ok ps ∧
      ps = basePaths "t".data) := by
  refine ⟨?_, ?_, ?_⟩
  · obtain ⟨ps, h1, _, h3, _, _⟩ :=
      provider_selection_exact ⟨"t".data, "t".data, [], "claude".data, DEFAULT_LIB_SOURCE, true⟩
    obtain ⟨h4, h5⟩ := h3 rfl
    exact ⟨ps, h1, h4, h5⟩
  · obtain ⟨ps, h1, _, _, h3, _⟩ :=
      provider_selection_exact ⟨"t".data, "t".data, [], "copilot".data, DEFAULT_LIB_SOURCE, true⟩
    obtain ⟨h4, h5, _⟩ := h3 rfl
    exact ⟨ps, h1, h4, h5⟩
  · obtain ⟨ps, h1, _, _, _, h3⟩ :=
      provider_selection_exact ⟨"t".data, "t".data, [], "cursor".data, DEFAULT_LIB_SOURCE, true⟩
    exact ⟨ps, h1, h3 (by decide) (by decide)⟩

theorem provider_paths_beq_env (p : List Char) :
    ∀ q ∈ (provider_manifest p).map Prod.snd, (q == ".env.example".data) = false := by
  unfold provider_manifest
  by_cases h1 : (p == "claude".data) = true
  · rw [if_pos h1]
    decide
  · rw [if_neg h1]
    by_cases h2 : (p == "copilot".data) = true
    · rw [if_pos h2]
      decide
    · rw [if_neg h2]
      simp

/-- C7: every run of `create_project` (which always succeeds on the fixed
catalog) ends with a `.env` file whose bytes are exactly the rendered
`.env.example` content — the copy step duplicates the example file written
by the base manifest, without re-rendering — and the two files are
byte-identical in the final tree. -/
theorem env_copied_from_example (cfg : ScaffoldConfig) (git : GitEnv)
    (fs0 : List (List Char × List Char)) :
    ∃ r, create_project cfg git fs0 = .ok r ∧
      lookupVar r.fs ".env".data =
        some (renderOut
          (template_vars cfg.project_name cfg.module_name cfg.usvc_lib_dependency)
          env_example_CONTENT) ∧
      lookupVar r.fs ".env".data = lookupVar r.fs ".env.example".data := by
  obtain ⟨base, hb1, hb2, hb3⟩ :=
    render_base cfg.project_name cfg.module_name cfg.usvc_lib_dependency
  obtain ⟨prov, hp1, hp2, hp3⟩ :=
    render_provider cfg.project_name cfg.module_name cfg.usvc_lib_dependency cfg.provider
  have htake : (base.take 4).map Prod.fst =
      ["pyproject.toml".data, "README.md".data, ".gitignore".data, ".env.example".data] := by
    rw [List.map_take, hb2]
    rfl
  have htakes : (base.take 4).map Prod.snd =
      [renderOut (template_vars cfg.project_name cfg.module_name cfg.usvc_lib_dependency)
          pyproject_toml_CONTENT,
        renderOut (template_vars cfg.project_name cfg.module_name cfg.usvc_lib_dependency)
          readme_CONTENT,
        renderOut (template_vars cfg.project_name cfg.module_name cfg.usvc_lib_dependency)
          gitignore_CONTENT,
        renderOut (template_vars cfg.project_name cfg.module_name cfg.usvc_lib_dependency)
          env_example_CONTENT] := by
    rw [List.map_take, hb3]
    rfl
  have hdropkeys : ∀ e ∈ base.drop 4, (e.1 == ".env.example".data) = false := by
    intro e he
    refine basePaths_beq_env cfg.module_name e.1 ?_
    rw [← hb2, ← List.map_drop]
    exact List.mem_map_of_mem _ he
  have hprovkeys : ∀ e ∈ prov, (e.1 == ".env.example".data) = false := by
    intro e he
    refine provider_paths_beq_env cfg.provider e.1 ?_
    rw [← hp2]
    exact List.mem_map_of_mem _ he
  rcases h4 : base.take 4 with _ | ⟨a, _ | ⟨b, _ | ⟨c, _ | ⟨d, rest⟩⟩⟩⟩ <;>
    rw [h4] at htake htakes
  · simp at htake
  · simp at htake
  · simp at htake
  · simp at htake
  · simp only [List.map_cons, List.cons.injEq] at htake htakes
    obtain ⟨-, -, -, hd1, hrest⟩ := htake
    obtain ⟨-, -, -, hd2, -⟩ := htakes
    have hrest_nil : rest = [] := by
      cases rest with
      | nil => rfl
      | cons x xs => simp at hrest
    subst hrest_nil
    have hrev : base.reverse = (base.drop 4).reverse ++ [d, c, b, a] := by
      conv_lhs => rw [← List.take_append_drop 4 base]
      rw [List.reverse_append, h4]
      rfl
    have hls : lookupVar ((base ++ prov).reverse ++ fs0) ".env.example".data = some d.2 := by
      rw [List.reverse_append, List.append_assoc]
      rw [lookupVar_append_of_absent (fun e he => hprovkeys e (List.mem_reverse.mp he))]
      rw [hrev, List.append_assoc]
      rw [lookupVar_append_of_absent (fun e he => hdropkeys e (List.mem_reverse.mp he))]
      show lookupVar ((d :: c :: b :: a :: []) ++ fs0) ".env.example".data = some d.2
      rw [List.cons_append, lookupVar, if_pos (by rw [hd1]; rfl)]
    refine ⟨_, create_project_eq cfg git fs0 base prov hb1 hp1, ?_, ?_⟩
    · show lookupVar (env_copy_step ((base ++ prov).reverse ++ fs0)) ".env".data = _
      rw [env_copy_step, hls]
      show lookupVar ((".env".data, d.2) :: ((base ++ prov).reverse ++ fs0)) ".env".data = _
      rw [lookupVar, if_pos (by rfl), hd2]
    · show lookupVar (env_copy_step ((base ++ prov).reverse ++ fs0)) ".env".data =
        lookupVar (env_copy_step ((base ++ prov).reverse ++ fs0)) ".env.example".data
      rw [env_copy_step, hls]
      show lookupVar ((".env".data, d.2) :: ((base ++ prov).reverse ++ fs0)) ".env".data =
        lookupVar ((".env".data, d.2) :: ((base ++ prov).reverse ++ fs0)) ".env.example".data
      simp only [lookupVar]
      rw [if_pos (by rfl), if_neg (by decide), hls]

/-- C8: with `init_git` true, any combination of git step outcomes —
non-zero exits or the tool being absent — is caught at the `_git_init`
boundary: the run still completes (`create_project` returns normally, so the
process exit status is unaffected), the failure surfaces only as the warning
flag, the next-steps report is still printed, and the files written are
identical to those of a run under any other git environment. -/
theorem git_failure_nonfatal (cfg : ScaffoldConfig) (git : GitEnv)
    (fs0 : List (List Char × List Char)) (hgit : cfg.init_git = true) :
    ∃ r, create_project cfg git fs0 = .ok r ∧
      r.nextStepsPrinted = true ∧
      r.gitWarning = (git_init_outcome git).isSome ∧
      ∀ git2 : GitEnv, ∃ r2, create_project cfg git2 fs0 = .ok r2 ∧
        r2.fs = r.fs ∧ r2.nextStepsPrinted = true := by
  obtain ⟨base, hb1, -, -⟩ :=
    render_base cfg.project_name cfg.module_name cfg.usvc_lib_dependency
  obtain ⟨prov, hp1, -, -⟩ :=
    render_provider cfg.project_name cfg.module_name cfg.usvc_lib_dependency cfg.provider
  refine ⟨_, create_project_eq cfg git fs0 base prov hb1 hp1, rfl, ?_, ?_⟩
  · show (cfg.init_git && (git_init_outcome git).isSome) = (git_init_outcome git).isSome
    rw [hgit, Bool.true_and]
  · intro git2
    exact ⟨_, create_project_eq cfg git2 fs0 base prov hb1 hp1, rfl, rfl⟩

/-- Witness for C8: a run whose `git commit` step fails with a non-zero
exit, and one where the git tool is missing entirely, both on a concrete
claude-provider config with `init_git = true`. -/
theorem git_failure_nonfatal_witness :
    (∃ r, create_project
        ⟨"test-service".data, "test_service".data, [], "claude".data,
          DEFAULT_LIB_SOURCE, true⟩
        ⟨none, none, some .calledProcessError⟩ [] = .ok r ∧
      r.nextStepsPrinted = true ∧
      r.gitWarning = (git_init_outcome ⟨none, none, some .calledProcessError⟩).isSome ∧
      ∀ git2 : GitEnv, ∃ r2, create_project
        ⟨"test-service".data, "test_service".data, [], "claude".data,
          DEFAULT_LIB_SOURCE, true⟩ git2 [] = .ok r2 ∧
        r2.fs = r.fs ∧ r2.nextStepsPrinted = true) ∧
    (∃ r, create_project
        ⟨"test-service".data, "test_service".data, [], "claude".data,
          DEFAULT_LIB_SOURCE, true⟩
        ⟨some .fileNotFound, none, none⟩ [] = .ok r ∧
      r.nextStepsPrinted = true ∧
      r.gitWarning = (git_init_outcome ⟨some .fileNotFound, none, none⟩).isSome ∧
      ∀ git2 : GitEnv, ∃ r2, create_project
        ⟨"test-service".data, "test_service".data, [], "claude".data,
          DEFAULT_LIB_SOURCE, true⟩ git2 [] = .ok r2 ∧
        r2.fs = r.fs ∧ r2.nextStepsPrinted = true) :=
  ⟨git_failure_nonfatal _ _ [] rfl, git_failure_nonfatal _ _ [] rfl⟩
